import Mathlib

/-!
Verification of the mDBMS-Integration repository against its specification.

The Python sources are shallowly embedded: dictionaries become association
lists, Python sets become duplicate-free lists, exceptions become `Option` or
`Except` results (a raised exception leaves the state unchanged, which the
embedding expresses by returning no new state), and machine integers become
`Nat` / `Int` with explicit wrap-around where the source packs bytes.
-/

namespace MDbms

instance {ε β : Type} [DecidableEq ε] [DecidableEq β] : DecidableEq (Except ε β) :=
  fun a b =>
    match a, b with
    | Except.ok x, Except.ok y =>
      if h : x = y then Decidable.isTrue (by rw [h])
      else Decidable.isFalse (fun he => h (by injection he))
    | Except.error x, Except.error y =>
      if h : x = y then Decidable.isTrue (by rw [h])
      else Decidable.isFalse (fun he => h (by injection he))
    | Except.ok _, Except.error _ => Decidable.isFalse (fun he => by injection he)
    | Except.error _, Except.ok _ => Decidable.isFalse (fun he => by injection he)

/-- Association-list lookup, first binding wins (Python dict lookup). -/
def alookup {κ β : Type} [DecidableEq κ] (k : κ) : List (κ × β) → Option β
  | [] => none
  | (k', v) :: t => if k' = k then some v else alookup k t

/-- Replace the binding of `k` (or append it), Python `d[k] = v`. -/
def aupsert {κ β : Type} [DecidableEq κ] (k : κ) (v : β) : List (κ × β) → List (κ × β)
  | [] => [(k, v)]
  | (k', v') :: t => if k' = k then (k, v) :: t else (k', v') :: aupsert k v t

/-- Remove every binding of `k`, Python `del d[k]`. -/
def aerase {κ β : Type} [DecidableEq κ] (k : κ) (m : List (κ × β)) : List (κ × β) :=
  m.filter (fun p => p.1 ≠ k)

/-! ### Embedding of src/src/ConcurrencyControlManager/ConcurrencyControlManager.py

`ConcurrencyControlManager` keeps `self.transactions : dict[int, dict]`;
the Lock-Based subclass adds `shared_locks : dict[row_id, set[txid]]` and
`exclusive_locks : dict[row_id, txid]`, and per-transaction sets
`shared_row_ids` / `exclusive_row_ids`.  A raised Python exception is embedded
as `none` (the caller's state is unchanged, no mutation precedes the raise in
the source). -/

/-- `TransactionStatus` from helpers/TransactionStatus.py. -/
inductive TransactionStatus : Type
  | ACTIVE
  | PARTIALLY_COMMITTED
  | COMMITTED
  | FAILED
  | ABORTED
  | TERMINATED
deriving DecidableEq, Repr

open TransactionStatus

/-- One entry of `self.transactions` for the lock-based manager. -/
structure TxnRecord where
  status : TransactionStatus
  shared_row_ids : List Nat
  exclusive_row_ids : List Nat
deriving DecidableEq, Repr

/-- State of `LockBasedConcurrencyControlManager`. -/
structure LockCCM where
  transactions : List (Nat × TxnRecord)
  shared_locks : List (Nat × List Nat)
  exclusive_locks : List (Nat × Nat)
deriving DecidableEq, Repr

/-- `RowAction` from helpers/RowAction.py. -/
inductive RowAction : Type
  | READ
  | WRITE
deriving DecidableEq, Repr

/-- `ConcurrencyResponse(transaction_id, success, reason)`. -/
structure ConcurrencyResponse where
  transaction_id : Nat
  success : Bool
  reason : String
deriving DecidableEq, Repr

/-- Python `set.add` (no duplicates). -/
def pyAdd (x : Nat) (s : List Nat) : List Nat :=
  if x ∈ s then s else s ++ [x]

/-- Python `set.discard`. -/
def pyDiscard (x : Nat) (s : List Nat) : List Nat :=
  s.filter (fun y => y ≠ x)

namespace LockCCM

def init : LockCCM := ⟨[], [], []⟩

/-- `transaction_begin` (Lock-Based override): id is `len(self.transactions)+1`,
status ACTIVE, fresh holder sets.  Returns the id and the new state. -/
def transaction_begin (s : LockCCM) : Nat × LockCCM :=
  let tid := s.transactions.length + 1
  (tid, { s with transactions := aupsert tid ⟨ACTIVE, [], []⟩ s.transactions })

/-- `transaction_commit`: asserts the transaction exists and is ACTIVE, then
sets PARTIALLY_COMMITTED.  `none` = raise. -/
def transaction_commit (s : LockCCM) (tid : Nat) : Option LockCCM :=
  match alookup tid s.transactions with
  | none => none
  | some r =>
    if r.status = ACTIVE then
      some { s with transactions := aupsert tid { r with status := PARTIALLY_COMMITTED } s.transactions }
    else none

/-- `transaction_rollback`: asserts exists and ACTIVE, then sets FAILED. -/
def transaction_rollback (s : LockCCM) (tid : Nat) : Option LockCCM :=
  match alookup tid s.transactions with
  | none => none
  | some r =>
    if r.status = ACTIVE then
      some { s with transactions := aupsert tid { r with status := FAILED } s.transactions }
    else none

/-- `transaction_end`: asserts exists and COMMITTED/ABORTED, sets TERMINATED. -/
def transaction_end (s : LockCCM) (tid : Nat) : Option LockCCM :=
  match alookup tid s.transactions with
  | none => none
  | some r =>
    if r.status = COMMITTED ∨ r.status = ABORTED then
      some { s with transactions := aupsert tid { r with status := TERMINATED } s.transactions }
    else none

/-- One iteration of `__transaction_release_locks` over `shared_row_ids`:
discard `tid` from the held shared set, deleting the entry when it empties. -/
def relSharedStep (tid : Nat) (m : List (Nat × List Nat)) (row : Nat) :
    List (Nat × List Nat) :=
  match alookup row m with
  | none => m
  | some holders =>
    let holders' := pyDiscard tid holders
    if holders' = [] then aerase row m else aupsert row holders' m

/-- Loop of `__transaction_release_locks` over `shared_row_ids`. -/
def releaseShared (tid : Nat) (rows : List Nat) (m : List (Nat × List Nat)) :
    List (Nat × List Nat) :=
  rows.foldl (relSharedStep tid) m

/-- One iteration of `__transaction_release_locks` over `exclusive_row_ids`. -/
def relExclStep (tid : Nat) (m : List (Nat × Nat)) (row : Nat) :
    List (Nat × Nat) :=
  match alookup row m with
  | some holder => if holder = tid then aerase row m else m
  | none => m

/-- Loop of `__transaction_release_locks` over `exclusive_row_ids`. -/
def releaseExclusive (tid : Nat) (rows : List Nat) (m : List (Nat × Nat)) :
    List (Nat × Nat) :=
  rows.foldl (relExclStep tid) m

/-- `__transaction_release_locks` (the record for `tid` is assumed present,
as in the source, which only calls it after an assert). -/
def release_locks (s : LockCCM) (tid : Nat) : LockCCM :=
  match alookup tid s.transactions with
  | none => s
  | some r =>
    { s with
      shared_locks := releaseShared tid r.shared_row_ids s.shared_locks
      exclusive_locks := releaseExclusive tid r.exclusive_row_ids s.exclusive_locks }

/-- `transaction_commit_flushed` (Lock-Based): asserts exists and
PARTIALLY_COMMITTED, sets COMMITTED, then releases all locks. -/
def transaction_commit_flushed (s : LockCCM) (tid : Nat) : Option LockCCM :=
  match alookup tid s.transactions with
  | none => none
  | some r =>
    if r.status = PARTIALLY_COMMITTED then
      let s' := { s with transactions := aupsert tid { r with status := COMMITTED } s.transactions }
      some (release_locks s' tid)
    else none

/-- `transaction_abort` (Lock-Based): asserts exists and FAILED, sets ABORTED,
then releases all locks. -/
def transaction_abort (s : LockCCM) (tid : Nat) : Option LockCCM :=
  match alookup tid s.transactions with
  | none => none
  | some r =>
    if r.status = FAILED then
      let s' := { s with transactions := aupsert tid { r with status := ABORTED } s.transactions }
      some (release_locks s' tid)
    else none

/-- `transaction_query` (Lock-Based), lines 119-153 of the source.  Returns the
`ConcurrencyResponse` and the new state; `none` = raise (missing transaction or
non-ACTIVE status, per the two asserts). -/
def transaction_query (s : LockCCM) (tid : Nat) (row_action : RowAction)
    (row_id : Nat) : Option (ConcurrencyResponse × LockCCM) :=
  match alookup tid s.transactions with
  | none => none
  | some r =>
    if r.status = ACTIVE then
      match row_action with
      | RowAction.READ =>
        match alookup row_id s.exclusive_locks with
        | some h =>
          if h ≠ tid then
            some (⟨tid, false, "Read denied: exclusive lock held by transaction " ++ toString h⟩, s)
          else
            some (⟨tid, true, "Read lock granted"⟩, s)
        | none =>
          some (⟨tid, true, "Read lock granted"⟩,
            { s with
              transactions :=
                aupsert tid { r with shared_row_ids := pyAdd row_id r.shared_row_ids }
                  s.transactions
              shared_locks :=
                aupsert row_id (pyAdd tid ((alookup row_id s.shared_locks).getD []))
                  s.shared_locks })
      | RowAction.WRITE =>
        match alookup row_id s.exclusive_locks with
        | some h =>
          if h = tid then
            some (⟨tid, true, "Write lock already held (exclusive)"⟩, s)
          else
            some (⟨tid, false, "Write denied: exclusive lock held by transaction id " ++ toString h⟩, s)
        | none =>
          match alookup row_id s.shared_locks with
          | some holders =>
            if holders.filter (fun y => y ≠ tid) ≠ [] then
              some (⟨tid, false, "Write denied: read locks held by other transactions"⟩, s)
            else
              some (⟨tid, true, "Write lock granted (upgraded or new)"⟩,
                { s with
                  transactions :=
                    aupsert tid
                      { r with
                        shared_row_ids := pyDiscard row_id r.shared_row_ids
                        exclusive_row_ids := pyAdd row_id r.exclusive_row_ids }
                      s.transactions
                  shared_locks := aupsert row_id (pyDiscard tid holders) s.shared_locks
                  exclusive_locks := aupsert row_id tid s.exclusive_locks })
          | none =>
            some (⟨tid, true, "Write lock granted (upgraded or new)"⟩,
              { s with
                transactions :=
                  aupsert tid { r with exclusive_row_ids := pyAdd row_id r.exclusive_row_ids }
                    s.transactions
                exclusive_locks := aupsert row_id tid s.exclusive_locks })
    else none

/-- One manager call (the operations named by the spec's state-machine claims). -/
inductive Op : Type
  | begin
  | query (tid : Nat) (a : RowAction) (row : Nat)
  | commit (tid : Nat)
  | commitFlushed (tid : Nat)
  | rollback (tid : Nat)
  | abort (tid : Nat)
  | endTxn (tid : Nat)
deriving DecidableEq, Repr

/-- Apply one call; `none` means the call raised and the state is unchanged. -/
def applyOp (op : Op) (s : LockCCM) : Option LockCCM :=
  match op with
  | Op.begin => some (transaction_begin s).2
  | Op.query tid a row => (transaction_query s tid a row).map Prod.snd
  | Op.commit tid => transaction_commit s tid
  | Op.commitFlushed tid => transaction_commit_flushed s tid
  | Op.rollback tid => transaction_rollback s tid
  | Op.abort tid => transaction_abort s tid
  | Op.endTxn tid => transaction_end s tid

/-- States reachable from the freshly constructed manager by any call sequence. -/
inductive Reachable : LockCCM → Prop
  | init : Reachable init
  | step {s s' : LockCCM} (op : Op) : Reachable s → applyOp op s = some s' → Reachable s'

/-- The shared-holder set recorded for a resource (empty when absent). -/
def sharedOf (s : LockCCM) (row : Nat) : List Nat :=
  (alookup row s.shared_locks).getD []

/-- Lock-table invariant over the two lock maps: while an exclusive holder is
recorded for a row, the recorded shared-holder set of that row is empty. -/
def LockInvM (sh : List (Nat × List Nat)) (ex : List (Nat × Nat)) : Prop :=
  ∀ row t, alookup row ex = some t → (alookup row sh).getD [] = []

/-- The lock-table invariant of a manager state. -/
def LockInv (s : LockCCM) : Prop :=
  LockInvM s.shared_locks s.exclusive_locks

/-- A transactions dict with exactly the keys `1..len`. -/
def TDomInv (m : List (Nat × TxnRecord)) : Prop :=
  ∀ k, (alookup k m).isSome ↔ (1 ≤ k ∧ k ≤ m.length)

/-- The transactions dict always has exactly the keys `1..len`. -/
def DomInv (s : LockCCM) : Prop :=
  TDomInv s.transactions

end LockCCM

/-- The edges of the status DAG stated by the spec. -/
def statusEdge (a b : TransactionStatus) : Prop :=
  (a = ACTIVE ∧ b = PARTIALLY_COMMITTED) ∨
  (a = PARTIALLY_COMMITTED ∧ b = COMMITTED) ∨
  (a = COMMITTED ∧ b = TERMINATED) ∨
  (a = ACTIVE ∧ b = FAILED) ∨
  (a = FAILED ∧ b = ABORTED) ∨
  (a = ABORTED ∧ b = TERMINATED)

/-! The `TimestampBasedConcurrencyControlManager` overrides of the same file:
`transaction_begin` calls the nonexistent `super().begin_transaction()` and
raises before touching any state; `transaction_commit` is a bare `pass`;
`transaction_query` runs the two asserts and then `pass`.  All other
operations are inherited from the base class, whose status logic is the one
embedded in `LockCCM` above. -/

/-- TS-variant `transaction_begin`: `AttributeError` before any mutation. -/
def ts_transaction_begin (_ : List (Nat × TxnRecord)) :
    Option (Nat × List (Nat × TxnRecord)) :=
  none

/-- TS-variant `transaction_commit`: the body is `pass`. -/
def ts_transaction_commit (m : List (Nat × TxnRecord)) :
    Option (List (Nat × TxnRecord)) :=
  some m

/-- TS-variant `transaction_query`: the two asserts, then `pass`. -/
def ts_transaction_query (m : List (Nat × TxnRecord)) (tid : Nat) :
    Option (List (Nat × TxnRecord)) :=
  match alookup tid m with
  | none => none
  | some r => if r.status = ACTIVE then some m else none

/-! ### The Wait-Die Lock-Based CCM of `ConcurrencyControl/src/`

The servers (server.py, main.py, cli.py) import their Lock-Based CCM from the
`ConcurrencyControl.src` package, which is not under src/ — only its callers
(concurrency_manager_integrated.py, client_handler.py) and its tests are.
The manager below is therefore modelled from the spec, §4.1/§4.1.1. -/

namespace WaitDie

/-- Modelled from the spec: per-transaction record of the Wait-Die CCM —
status plus the timestamp used by Wait-Die (equal to the id at begin). -/
structure WTxn where
  status : TransactionStatus
  timestamp : Nat
deriving DecidableEq, Repr

/-- Modelled from the spec: `query` outcome — GRANTED, WAITING(blocked_by) or
FAILED(reason). -/
inductive QueryResult : Type
  | GRANTED
  | WAITING (blocked_by : Option Nat)
  | FAILED (reason : String)
deriving DecidableEq, Repr

/-- Modelled from the spec: state of the Lock-Based (2PL + Wait-Die) CCM that
is missing from src/: `shared[resource]`, `exclusive[resource]`,
`wait_queue[resource]` (ordered (txid, action) pairs) and the per-transaction
wait event (`true` = set, `false` = cleared). Resources are table names. -/
structure State where
  transactions : List (Nat × WTxn)
  shared : List (String × List Nat)
  exclusive : List (String × Nat)
  wait_queue : List (String × List (Nat × RowAction))
  events : List (Nat × Bool)
deriving DecidableEq, Repr

/-- Timestamp of a transaction (0 when unknown). -/
def tsOf (s : State) (t : Nat) : Nat :=
  ((alookup t s.transactions).map WTxn.timestamp).getD 0

/-- Modelled from the spec: `begin()` allocates a fresh id and an equal
timestamp, registers ACTIVE status and a set event. -/
def transaction_begin (s : State) : Nat × State :=
  let tid := s.transactions.length + 1
  (tid,
   { s with
     transactions := aupsert tid ⟨TransactionStatus.ACTIVE, tid⟩ s.transactions
     events := aupsert tid true s.events })

/-- Modelled from the spec: the Wait-Die comparison against a holder — an
OLDER (smaller-timestamp) requester is enqueued with its event cleared and
receives WAITING; a YOUNGER one is marked FAILED and receives
FAILED("wait-die: die"). -/
def waitDie (s : State) (tid : Nat) (wt : WTxn) (holder : Nat) (a : RowAction)
    (res : String) : QueryResult × State :=
  if wt.timestamp < tsOf s holder then
    (QueryResult.WAITING (some holder),
     { s with
       wait_queue :=
         aupsert res ((alookup res s.wait_queue).getD [] ++ [(tid, a)]) s.wait_queue
       events := aupsert tid false s.events })
  else
    (QueryResult.FAILED "wait-die: die",
     { s with transactions := aupsert tid { wt with status := TransactionStatus.FAILED } s.transactions })

/-- The other shared holder with the smallest timestamp. -/
def oldestBy (ts : Nat → Nat) : List Nat → Option Nat
  | [] => none
  | x :: xs =>
    match oldestBy ts xs with
    | none => some x
    | some y => if ts x ≤ ts y then some x else some y

/-- Modelled from the spec, §4.1.1: `query(txid, action, resource)`.  It never
blocks: it always returns one of GRANTED / WAITING / FAILED at once. -/
def transaction_query (s : State) (tid : Nat) (a : RowAction) (res : String) :
    QueryResult × State :=
  match alookup tid s.transactions with
  | none => (QueryResult.FAILED "not active", s)
  | some wt =>
    if wt.status = TransactionStatus.ACTIVE then
      match a with
      | RowAction.READ =>
        match alookup res s.exclusive with
        | none =>
          (QueryResult.GRANTED,
           { s with shared := aupsert res (pyAdd tid ((alookup res s.shared).getD [])) s.shared })
        | some h =>
          if h = tid then (QueryResult.GRANTED, s)
          else waitDie s tid wt h RowAction.READ res
      | RowAction.WRITE =>
        match alookup res s.exclusive with
        | some h =>
          if h = tid then (QueryResult.GRANTED, s)
          else waitDie s tid wt h RowAction.WRITE res
        | none =>
          match alookup res s.shared with
          | some holders =>
            if holders.filter (fun y => y ≠ tid) = [] then
              (QueryResult.GRANTED,
               { s with
                 shared := aupsert res (pyDiscard tid holders) s.shared
                 exclusive := aupsert res tid s.exclusive })
            else
              match oldestBy (tsOf s) (holders.filter (fun y => y ≠ tid)) with
              | some h => waitDie s tid wt h RowAction.WRITE res
              | none => (QueryResult.GRANTED, s)
          | none =>
            (QueryResult.GRANTED, { s with exclusive := aupsert res tid s.exclusive })
    else (QueryResult.FAILED "not active", s)

/-- A concrete Wait-Die state: transaction 2 (timestamp 2) holds table `T`
exclusively; transactions 1 (timestamp 1) and 2 are ACTIVE. -/
def demoWD : State :=
  ⟨[(1, ⟨TransactionStatus.ACTIVE, 1⟩), (2, ⟨TransactionStatus.ACTIVE, 2⟩)],
   [], [("T", 2)], [], [(1, true), (2, true)]⟩

/-- A concrete Wait-Die state: transaction 1 (timestamp 1) holds table `T`
exclusively; transactions 1 and 2 are ACTIVE. -/
def demoWD' : State :=
  ⟨[(1, ⟨TransactionStatus.ACTIVE, 1⟩), (2, ⟨TransactionStatus.ACTIVE, 2⟩)],
   [], [("T", 1)], [], [(1, true), (2, true)]⟩

end WaitDie

/-! ### Embedding of src/src/QueryProcessor (models, core) and client_handler.py

Scalar values of rows are embedded as `PyVal`; Python text is carried as
`String`.  Wall-clock fields (`execution_time`, `timestamp`) are dropped: no
claim mentions them. -/

/-- A scalar value in a row (`int`, `str`, `None`). -/
inductive PyVal : Type
  | int (n : Int)
  | str (s : String)
  | null
deriving DecidableEq, Repr

/-- `Rows` from models/rows.py. -/
structure Rows where
  columns : List String
  data : List (List PyVal)
deriving DecidableEq, Repr

/-- `ExecutionResult` from models/execution_result.py (lines 6-27), without
the wall-clock fields. -/
structure ExecutionResult where
  success : Bool
  rows : Option Rows := none
  affected_rows : Nat := 0
  message : String := ""
  error : Option String := none
  transaction_id : Option Nat := none
  query : Option String := none
deriving DecidableEq, Repr

/-- `Transaction` from models/transaction.py: the fields the processor's
commit/rollback path reads or writes (`queries_executed` and `locks_held` are
write-only lists no claim observes). -/
structure PTransaction where
  transaction_id : Nat
  status : String
deriving DecidableEq, Repr

/-- The mutable state of `QueryProcessor` (query_processor_core.py) plus the
CCM core standing behind its concurrency manager.  `counter` is the class
variable `Transaction.counter`. -/
structure ProcState where
  ccm : LockCCM
  active_transactions : List (Nat × PTransaction)
  counter : Nat
deriving DecidableEq, Repr

/-- `QueryProcessor._get_or_create_transaction` together with
`Transaction.__init__`: `transaction_id or Transaction.counter` picks the
counter when the id is missing (or the falsy 0), and the counter always
advances. -/
def get_or_create_transaction (st : ProcState) (tid? : Option Nat) :
    PTransaction × ProcState :=
  match tid? with
  | some tid =>
    match alookup tid st.active_transactions with
    | some txn => (txn, st)
    | none =>
      let newid := if tid = 0 then st.counter else tid
      let txn : PTransaction := ⟨newid, "ACTIVE"⟩
      (txn,
       { st with
         active_transactions := aupsert newid txn st.active_transactions
         counter := st.counter + 1 })
  | none =>
    let txn : PTransaction := ⟨st.counter, "ACTIVE"⟩
    (txn,
     { st with
       active_transactions := aupsert st.counter txn st.active_transactions
       counter := st.counter + 1 })

/-- `QueryProcessor.execute_query` (lines 44-86).  The optimizer (an external
collaborator per the spec) is a parameter giving, per query, either a parse
error or a plan.  When a plan is produced, line 71 invokes
`self.executor.execute(plan_node, transaction)` with two arguments while
`QueryExecutor.execute` (executor/query_executor.py line 25) accepts only the
plan; Python raises `TypeError`, which the `except` at line 81 converts into a
failed result.  (Were the arity right, `QueryExecutor.execute` would next pass
the keywords `data=`/`rows_affected=` to `ExecutionResult.__init__`, which has
no such parameters — a second `TypeError` on the success path.)  So every call
returns `success := false`. -/
def execute_query (st : ProcState) (optResult : Except String Unit)
    (query : String) (tid? : Option Nat) : ExecutionResult × ProcState :=
  let st₁ := (get_or_create_transaction st tid?).2
  match optResult with
  | Except.error e =>
    ({ success := false, error := some ("Optimization error: " ++ e) }, st₁)
  | Except.ok _ =>
    ({ success := false,
       error := some ("Query execution failed: QueryExecutor.execute() takes "
         ++ "2 positional arguments but 3 were given") }, st₁)

/-- `QueryProcessor.commit_transaction` (lines 122-152): a missing id returns
the failure result with the `Transaction '<id>' not found` message; otherwise
`transaction.commit()` sets the status, the locks are released and the commit
logged (collaborator calls, modelled as non-raising per their interface), the
entry is deleted and the success result returned. -/
def commit_transaction (st : ProcState) (tid : Nat) : ExecutionResult × ProcState :=
  match alookup tid st.active_transactions with
  | none =>
    ({ success := false,
       error := some ("Transaction '" ++ toString tid ++ "' not found") }, st)
  | some _ =>
    ({ success := true,
       message := "Transaction '" ++ toString tid ++ "' committed successfully" },
     { st with active_transactions := aerase tid st.active_transactions })

/-- `QueryProcessor.rollback_transaction` (lines 154-179). -/
def rollback_transaction (st : ProcState) (tid : Nat) : ExecutionResult × ProcState :=
  match alookup tid st.active_transactions with
  | none =>
    ({ success := false,
       error := some ("Transaction '" ++ toString tid ++ "' not found") }, st)
  | some _ =>
    ({ success := true,
       message := "Transaction '" ++ toString tid ++ "' rolled back successfully" },
     { st with active_transactions := aerase tid st.active_transactions })

/-- Modelled from the spec: `QueryProcessor.begin_transaction` — invoked by
cli.py, main.py and client_handler.py but absent from the src/ snapshot of
query_processor_core.py — delegates to the concurrency manager
(`begin_transaction() -> txid (delegates to CCM)`); the present
`IntegratedConcurrencyManager.begin_transaction` returns
`self.ccm.transaction_begin()`, embedded by `LockCCM.transaction_begin`. -/
def processor_begin_transaction (st : ProcState) : Nat × ProcState :=
  let r := LockCCM.transaction_begin st.ccm
  (r.1, { st with ccm := r.2 })

/-- A queued retry request of client_handler.py (`RetryItem`, minus the
wall-clock priority and the thread event). -/
structure RetryItem where
  client_id : String
  transaction_id : Nat
  query : String
deriving DecidableEq, Repr

/-- The mutable state of `ClientHandler` that its request handlers touch. -/
structure HandlerState where
  proc : ProcState
  active_transactions : List (Nat × String)
  retry_queue : List RetryItem
deriving DecidableEq, Repr

/-- A response dict sent to the client (the fields the handlers set). -/
structure WireResponse where
  success : Bool
  error : Option String := none
  message : Option String := none
  transaction_id : Option Nat := none
  queued_for_retry : Bool := false
deriving DecidableEq, Repr

/-- A decoded client message: `message.get('type')`,
`message.get('query', '')`, `message.get('transaction_id')`. -/
structure WireMessage where
  type? : Option String := none
  query : String := ""
  transaction_id : Option Nat := none
deriving DecidableEq, Repr

/-- `_result_to_dict` (the fields present in `ExecutionResult`; `rows` and
`affected_rows` are attached for SELECT/DML results, which the broken
execution path never produces). -/
def result_to_dict (r : ExecutionResult) : WireResponse :=
  { success := r.success
    message := some r.message
    error := r.error }

/-- Does the error text contain the substring "Lock denied"
(`'Lock denied' in str(result.error)`)? -/
def hasLockDenied (e : Option String) : Bool :=
  match e with
  | none => false
  | some s => (s.splitOn "Lock denied").length > 1

/-- `ClientHandler._handle_execute` (lines 213-240). -/
def handle_execute (optimizer : String → Except String Unit) (hs : HandlerState)
    (client_id : String) (msg : WireMessage) : WireResponse × HandlerState :=
  let r := execute_query hs.proc (optimizer msg.query) msg.query msg.transaction_id
  let hs₁ : HandlerState := { hs with proc := r.2 }
  if ¬ r.1.success ∧ hasLockDenied r.1.error then
    match msg.transaction_id with
    | some tid =>
      ({ success := false, error := r.1.error, queued_for_retry := true,
         message := some "Query queued for automatic retry" },
       { hs₁ with retry_queue := hs₁.retry_queue ++ [⟨client_id, tid, msg.query⟩] })
    | none =>
      -- the source then reads `self.processor._lock`, an attribute the
      -- present QueryProcessor does not have: AttributeError, caught below
      ({ success := false,
         error := some "'QueryProcessor' object has no attribute '_lock'" }, hs₁)
  else
    (result_to_dict r.1, hs₁)

/-- `ClientHandler._handle_begin` (lines 242-251). -/
def handle_begin (hs : HandlerState) (client_id : String) :
    WireResponse × HandlerState :=
  let r := processor_begin_transaction hs.proc
  ({ success := true, transaction_id := some r.1 },
   { hs with
     proc := r.2
     active_transactions := aupsert r.1 client_id hs.active_transactions })

/-- `ClientHandler._handle_commit` (lines 253-267; `_trigger_retry` is a no-op
here because `waiting_on` is never populated — `_add_to_retry_queue` always
leaves `failed_by` as None). -/
def handle_commit (hs : HandlerState) (msg : WireMessage) :
    WireResponse × HandlerState :=
  match msg.transaction_id with
  | none =>
    ({ success := false, error := some "Transaction 'None' not found",
       message := some "" }, hs)
  | some tid =>
    let r := commit_transaction hs.proc tid
    (result_to_dict r.1,
     { hs with
       proc := r.2
       active_transactions := aerase tid hs.active_transactions })

/-- `ClientHandler._handle_rollback` (lines 269-283). -/
def handle_rollback (hs : HandlerState) (msg : WireMessage) :
    WireResponse × HandlerState :=
  match msg.transaction_id with
  | none =>
    ({ success := false, error := some "Transaction 'None' not found",
       message := some "" }, hs)
  | some tid =>
    let r := rollback_transaction hs.proc tid
    (result_to_dict r.1,
     { hs with
       proc := r.2
       active_transactions := aerase tid hs.active_transactions })

/-- `ClientHandler._handle_request` (lines 199-211): the `if/elif` chain over
`message.get('type')`; anything that is not execute/begin/commit/rollback —
including the wire protocol's `analyze` and `defragment` — falls through to
`{'success': False, 'error': 'Unknown request type'}`. -/
def handle_request (optimizer : String → Except String Unit) (hs : HandlerState)
    (client_id : String) (msg : WireMessage) : WireResponse × HandlerState :=
  if msg.type? = some "execute" then handle_execute optimizer hs client_id msg
  else if msg.type? = some "begin" then handle_begin hs client_id
  else if msg.type? = some "commit" then handle_commit hs msg
  else if msg.type? = some "rollback" then handle_rollback hs msg
  else ({ success := false, error := some "Unknown request type" }, hs)

/-- `ClientHandler._client_worker` (lines 144-183) on a list of decoded
messages: every message is handled, its response sent, and the loop continues;
the connection is torn down only on socket EOF or a JSON decode error, never
because of a response. -/
def client_worker (optimizer : String → Except String Unit) (hs : HandlerState)
    (client_id : String) : List WireMessage → List WireResponse × HandlerState
  | [] => ([], hs)
  | msg :: rest =>
    ((handle_request optimizer hs client_id msg).1 ::
       (client_worker optimizer (handle_request optimizer hs client_id msg).2
         client_id rest).1,
     (client_worker optimizer (handle_request optimizer hs client_id msg).2
       client_id rest).2)

/-- The handler state of a freshly started server. -/
def hsInit : HandlerState := ⟨⟨LockCCM.init, [], 0⟩, [], []⟩

/-! ### Embedding of ExecutionVisitor.visit_sort (execution_visitor.py 74-114) -/

/-- `OrderByClause(column, direction)` from models/conditions.py. -/
structure OrderByClause where
  column : String
  direction : String
deriving DecidableEq, Repr

/-- One component of the Python sort key: a number (`value` or `-value`) or a
tuple of (possibly negated) character codes. -/
inductive KElem : Type
  | num (n : Int)
  | tup (cs : List Int)
deriving DecidableEq, Repr

/-- A `None` key value is first replaced by the empty string (line 96). -/
def normNull : PyVal → PyVal
  | PyVal.null => PyVal.str ""
  | v => v

/-- The per-clause key encoding of `sort_key` (lines 93-107): DESC negates a
number, or the character codes of a string (the `if c else 0` is dead code:
iterating a Python str never yields a falsy character); ASC keeps the number
and takes the character codes.  The normalized value is never `None`, so the
last arm is unreachable. -/
def keyElem (direction : String) (v : PyVal) : KElem :=
  match normNull v with
  | PyVal.int n => if direction = "DESC" then KElem.num (-n) else KElem.num n
  | PyVal.str s =>
    if direction = "DESC" then
      KElem.tup (s.data.map (fun c => -(c.toNat : Int)))
    else
      KElem.tup (s.data.map (fun c => (c.toNat : Int)))
  | PyVal.null => KElem.num 0

/-- Integer comparison. -/
def cmpInt (a b : Int) : Ordering :=
  if a < b then Ordering.lt else if a = b then Ordering.eq else Ordering.gt

/-- Lexicographic comparison of integer tuples (Python tuple comparison; a
proper prefix is smaller). -/
def cmpList : List Int → List Int → Ordering
  | [], [] => Ordering.eq
  | [], _ :: _ => Ordering.lt
  | _ :: _, [] => Ordering.gt
  | a :: as, b :: bs =>
    match cmpInt a b with
    | Ordering.eq => cmpList as bs
    | o => o

/-- Python comparison of two key components: numbers and tuples compare
within their kind; a number against a tuple raises `TypeError` (`none`). -/
def cmpElem : KElem → KElem → Option Ordering
  | KElem.num a, KElem.num b => some (cmpInt a b)
  | KElem.tup a, KElem.tup b => some (cmpList a b)
  | _, _ => none

/-- Python comparison of two whole keys (tuples of components),
lexicographic, propagating `TypeError`. -/
def cmpKey : List KElem → List KElem → Option Ordering
  | [], [] => some Ordering.eq
  | [], _ :: _ => some Ordering.lt
  | _ :: _, [] => some Ordering.gt
  | a :: as, b :: bs =>
    match cmpElem a b with
    | none => none
    | some Ordering.eq => cmpKey as bs
    | some o => some o

/-- `a <= b` on keys (also true on `TypeError` pairs, which `visit_sort`
rejects before sorting). -/
def keyLeB (a b : List KElem) : Bool :=
  match cmpKey a b with
  | some Ordering.gt => false
  | _ => true

/-- `columns.index(clause.column)` for every ORDER BY clause (lines 81-87),
raising on the first missing column. -/
def sortIndices (columns : List String) :
    List OrderByClause → Except String (List (Nat × String))
  | [] => Except.ok []
  | cl :: cls =>
    match columns.findIdx? (fun c => c = cl.column) with
    | none => Except.error ("ORDER BY column not found: " ++ cl.column)
    | some i =>
      match sortIndices columns cls with
      | Except.error e => Except.error e
      | Except.ok rest => Except.ok ((i, cl.direction) :: rest)

/-- `sort_key(row)`: `row[idx]` raises IndexError past the end of the row. -/
def rowKey (idxs : List (Nat × String)) (row : List PyVal) :
    Except String (List KElem) :=
  match idxs with
  | [] => Except.ok []
  | (i, dir) :: rest =>
    match row[i]? with
    | none => Except.error "IndexError: list index out of range"
    | some v =>
      match rowKey rest row with
      | Except.error e => Except.error e
      | Except.ok ks => Except.ok (keyElem dir v :: ks)

/-- The key of a row when defined (which `visit_sort` has checked). -/
def rowKeyD (idxs : List (Nat × String)) (row : List PyVal) : List KElem :=
  (rowKey idxs row).toOption.getD []

def exceptIsOk {ε β : Type} : Except ε β → Bool
  | Except.ok _ => true
  | Except.error _ => false

/-- Is every pair of keys comparable (no `TypeError` during the sort)? -/
def allComparable (keys : List (List KElem)) : Bool :=
  keys.all (fun a => keys.all (fun b => (cmpKey a b).isSome))

/-- The order on (key, row) pairs used by the stable sort. -/
def sortRel (x y : List KElem × List PyVal) : Prop :=
  keyLeB x.1 y.1 = true

instance : DecidableRel sortRel :=
  fun x y => inferInstanceAs (Decidable (keyLeB x.1 y.1 = true))

/-- Python truthiness of `node.limit` (`None` and `0` are falsy, so neither
truncates). -/
def applyLimit (limit : Option Nat) (l : List (List PyVal)) : List (List PyVal) :=
  match limit with
  | none => l
  | some n => if n = 0 then l else l.take n

/-- `ExecutionVisitor.visit_sort` (lines 74-114).  Python's `sorted` is the
stable sort by `sort_key` — any stable implementation is extensionally the
same — embedded by `List.insertionSort`, which inserts each earlier row
before the first strictly-greater element of the already-sorted later rows,
so key-equal rows keep their order.  CPython raises `TypeError` on whichever
incomparable key pair Timsort happens to compare; the embedding rejects every
input containing such a pair. -/
def visit_sort (order_by : List OrderByClause) (limit : Option Nat)
    (child : Rows) : Except String Rows :=
  match order_by with
  | [] => Except.ok ⟨child.columns, applyLimit limit child.data⟩
  | _ :: _ =>
    match sortIndices child.columns order_by with
    | Except.error e => Except.error e
    | Except.ok idxs =>
      if ¬ (child.data.all (fun r => exceptIsOk (rowKey idxs r))) then
        Except.error "IndexError: list index out of range"
      else if ¬ allComparable (child.data.map (rowKeyD idxs)) then
        Except.error "TypeError: unorderable key types"
      else
        Except.ok ⟨child.columns,
          applyLimit limit
            ((List.insertionSort sortRel
              (child.data.map (fun r => (rowKeyD idxs r, r)))).map Prod.snd)⟩

/-- Sort demo input: rows ["b"] and [NULL] under ORDER BY a ASC. -/
def sortChild : Rows := ⟨["a"], [[PyVal.str "b"], [PyVal.null]]⟩

/-- Sort demo output: the NULL row first. -/
def sortOut : Rows := ⟨["a"], [[PyVal.null], [PyVal.str "b"]]⟩

/-! ### Embedding of src/src/StorageManager/classes/Serializer.py

Scalars here are `SVal`: Python text is carried as its UTF-8 byte sequence
(the stdlib codec is assumed bijective on valid text), and a Python float as
the IEEE-754 binary32 bit pattern `struct.pack('<f', …)` would store — the
double-to-single rounding of the stdlib is outside the embedding.  Byte
strings are `List Nat`.  `ROW_HEADER` comes from `classes/globals.py`, which
is not under src/; it is modelled from the spec as `'<cI'`
(`delete_flag(1 byte) || row_len(uint32 LE)`, size 5). -/

inductive SVal : Type
  | int (n : Int)
  | float (bits : Nat)
  | text (bs : List Nat)
deriving DecidableEq, Repr

/-- Column types of the storage schema (`int`, `float`, `char(n)`,
`varchar(n)`). -/
inductive ColType : Type
  | int
  | float
  | char (length : Nat)
  | varchar (length : Nat)
deriving DecidableEq, Repr

/-- One column of a loaded schema. -/
structure SColumn where
  name : String
  ctype : ColType
deriving DecidableEq, Repr

/-- `struct.pack('<H', n)`. -/
def u16le (n : Nat) : List Nat :=
  [n % 256, n / 256 % 256]

/-- `struct.pack('<I', n)`. -/
def u32le (n : Nat) : List Nat :=
  [n % 256, n / 256 % 256, n / 65536 % 256, n / 16777216 % 256]

/-- `struct.unpack('<H', …)`. -/
def readU16 (b0 b1 : Nat) : Nat := b0 + 256 * b1

/-- `struct.unpack('<I', …)`. -/
def readU32 (b0 b1 b2 b3 : Nat) : Nat :=
  b0 + 256 * b1 + 65536 * b2 + 16777216 * b3

/-- `struct.pack('<i', v)` (two's complement little endian; raises for values
outside the int32 range). -/
def i32le (v : Int) : Except String (List Nat) :=
  if -(2 ^ 31) ≤ v ∧ v < 2 ^ 31 then
    Except.ok (u32le (v % 2 ^ 32).toNat)
  else
    Except.error "struct.error: argument out of range"

/-- `struct.unpack('<i', …)` from the unsigned value. -/
def readI32 (n : Nat) : Int :=
  if n < 2 ^ 31 then (n : Int) else (n : Int) - 2 ^ 32

/-- `str(value).encode('utf-8')` at the byte level.  A float value would
need Python's float formatting, outside the embedding. -/
def pyBytes : SVal → Except String (List Nat)
  | SVal.text bs => Except.ok bs
  | SVal.int v => Except.ok ((toString v).data.map Char.toNat)
  | SVal.float _ => Except.error "float text formatting not modelled"

/-- One column of `Serializer.serialize` (lines 50-83).  The `char` arm is
the source's bug: a value of at most `length` encoded bytes reaches
`packed_value.ljust(column_length, chr(0))` with a str fill — `bytes.ljust` given a
`str` fill character — which raises `TypeError` before comparing lengths;
only a strictly longer value (truncated, skipping `ljust`) survives. -/
def serializeField (t : ColType) (v : SVal) : Except String (List Nat) :=
  match t, v with
  | ColType.int, SVal.int n => i32le n
  | ColType.int, _ => Except.error "struct.error: required argument is not an integer"
  | ColType.float, SVal.float bits => Except.ok (u32le bits)
  | ColType.float, _ => Except.error "float packing not modelled"
  | ColType.char n, v =>
    match pyBytes v with
    | Except.error e => Except.error e
    | Except.ok packed =>
      if packed.length > n then
        Except.ok (packed.take n)
      else
        Except.error "TypeError: ljust() argument 2 must be a byte string of length 1, not str"
  | ColType.varchar n, v =>
    match pyBytes v with
    | Except.error e => Except.error e
    | Except.ok packed =>
      let data := if packed.length > n then packed.take n else packed
      Except.ok (u16le data.length ++ data)

/-- `zip(self.schema['columns'], tuple)` over one row (zip stops at the
shorter side). -/
def serializeRow : List SColumn → List SVal → Except String (List Nat)
  | c :: cs, v :: vs =>
    (match serializeField c.ctype v with
     | Except.error e => Except.error e
     | Except.ok field =>
       match serializeRow cs vs with
       | Except.error e => Except.error e
       | Except.ok rest => Except.ok (field ++ rest))
  | _, _ => Except.ok []

/-- `Serializer.serialize` (lines 25-90) for a loaded schema: each row is
`'A'(65) || uint32 LE row length || packed fields`.  (With no loaded schema
the source returns a sentinel byte string instead; the claims presuppose a
loaded schema.) -/
def serialize (schema : List SColumn) : List (List SVal) → Except String (List Nat)
  | [] => Except.ok []
  | row :: rest =>
    match serializeRow schema row with
    | Except.error e => Except.error e
    | Except.ok fields =>
      if fields.length < 2 ^ 32 then
        match serialize schema rest with
        | Except.error e => Except.error e
        | Except.ok more => Except.ok (65 :: u32le fields.length ++ fields ++ more)
      else
        Except.error "struct.error: argument out of range"

/-- `bytes.rstrip` of the zero byte: drop trailing zero bytes. -/
def stripTrailingZeros (bs : List Nat) : List Nat :=
  (bs.reverse.dropWhile (fun b => b = 0)).reverse

/-- One column of `Serializer.deserialize` (lines 124-148), consuming the
field's bytes and returning the rest.  `char` never raises (slices truncate)
and pads the stripped text back to the column length with spaces — the
`ljust(length, ' ')` of line 138, modelled at the byte level, which matches
the source for single-byte text. -/
def parseField (t : ColType) (bs : List Nat) : Except String (SVal × List Nat) :=
  match t with
  | ColType.int =>
    match bs with
    | b0 :: b1 :: b2 :: b3 :: rest =>
      Except.ok (SVal.int (readI32 (readU32 b0 b1 b2 b3)), rest)
    | _ => Except.error "struct.error: unpack requires a buffer of 4 bytes"
  | ColType.float =>
    match bs with
    | b0 :: b1 :: b2 :: b3 :: rest =>
      Except.ok (SVal.float (readU32 b0 b1 b2 b3), rest)
    | _ => Except.error "struct.error: unpack requires a buffer of 4 bytes"
  | ColType.char n =>
    let strip := stripTrailingZeros (bs.take n)
    Except.ok (SVal.text (strip ++ List.replicate (n - strip.length) 32), bs.drop n)
  | ColType.varchar _ =>
    match bs with
    | b0 :: b1 :: rest =>
      Except.ok (SVal.text (rest.take (readU16 b0 b1)), rest.drop (readU16 b0 b1))
    | _ => Except.error "struct.error: unpack requires a buffer of 2 bytes"

/-- The per-row field loop of `deserialize` (extra bytes after the last
column are ignored, as in the source). -/
def parseRow : List SColumn → List Nat → Except String (List SVal)
  | [], _ => Except.ok []
  | c :: cs, bs =>
    match parseField c.ctype bs with
    | Except.error e => Except.error e
    | Except.ok (v, rest) =>
      match parseRow cs rest with
      | Except.error e => Except.error e
      | Except.ok vs => Except.ok (v :: vs)

/-- `Serializer.deserialize` (lines 94-151): the `while pointer < len` loop —
stop with fewer than 5 header bytes left; skip a row flagged `'D'`(68) or
`0`; stop when the recorded row length overruns the buffer; otherwise parse
the row and continue after it. -/
def deserialize (schema : List SColumn) : List Nat → Except String (List (List SVal))
  | b0 :: b1 :: b2 :: b3 :: b4 :: rest =>
    if b0 = 68 ∨ b0 = 0 then
      deserialize schema (rest.drop (readU32 b1 b2 b3 b4))
    else if readU32 b1 b2 b3 b4 > rest.length then
      Except.ok []
    else
      match parseRow schema (rest.take (readU32 b1 b2 b3 b4)) with
      | Except.error e => Except.error e
      | Except.ok row =>
        match deserialize schema (rest.drop (readU32 b1 b2 b3 b4)) with
        | Except.error e => Except.error e
        | Except.ok more => Except.ok (row :: more)
  | _ => Except.ok []
termination_by bs => bs.length
decreasing_by
  all_goals simp [List.length_drop]; omega

/-- Schemas of INT and VARCHAR(n) columns with n in uint16 range — the
fragment in which the serializer round-trips. -/
def intVarcharSchema (schema : List SColumn) : Bool :=
  schema.all (fun c =>
    match c.ctype with
    | ColType.int => true
    | ColType.varchar n => n < 2 ^ 16
    | _ => false)

/-- A value conforming to a column type under the claim's hypotheses. -/
def conformsField : ColType → SVal → Bool
  | ColType.int, SVal.int v => decide (-(2 ^ 31) ≤ v ∧ v < 2 ^ 31)
  | ColType.varchar n, SVal.text bs => bs.length ≤ n
  | _, _ => false

/-- A row conforming to the schema: one value per column, each conforming. -/
def conformsRow (schema : List SColumn) (row : List SVal) : Bool :=
  row.length = schema.length &&
  (schema.zip row).all (fun p => conformsField p.1.ctype p.2)

/-! ### Embedding of src/src/QueryProcessor/models/conditions.py -/

/-- `ComparisonOperator`. -/
inductive ComparisonOperator : Type
  | EQUALS
  | NOT_EQUALS
  | GREATER_THAN
  | LESS_THAN
  | GREATER_EQUAL
  | LESS_EQUAL
  | LIKE
  | IN
  | BETWEEN
  | IS_NULL
  | IS_NOT_NULL
deriving DecidableEq, Repr

/-- The `value` slot of a `WhereCondition`: a scalar literal, a
`ColumnReference`, or a list/tuple (for IN and BETWEEN). -/
inductive CondValue : Type
  | lit (v : PyVal)
  | ref (column_name : String)
  | many (vs : List PyVal)
deriving DecidableEq, Repr

/-- `WhereCondition(column, operator, value)`. -/
structure WhereCondition where
  column : String
  operator : ComparisonOperator
  value : CondValue
deriving DecidableEq, Repr

/-- Python `==` on our scalar domain: equal only within a type; `None` equals
only `None`; mixed types compare unequal without raising. -/
def pyEq : PyVal → PyVal → Bool
  | PyVal.int m, PyVal.int n => m = n
  | PyVal.str s, PyVal.str t => s = t
  | PyVal.null, PyVal.null => true
  | _, _ => false

/-- Python `<` : defined within `int` and within `str` (code-point
lexicographic); anything mixed, or involving `None`, raises `TypeError`. -/
def pyLt : PyVal → PyVal → Except String Bool
  | PyVal.int m, PyVal.int n => Except.ok (decide (m < n))
  | PyVal.str s, PyVal.str t => Except.ok (decide (s < t))
  | _, _ => Except.error "TypeError: unorderable types"

/-- Python `<=` under the same typing rules. -/
def pyLe : PyVal → PyVal → Except String Bool
  | PyVal.int m, PyVal.int n => Except.ok (decide (m ≤ n))
  | PyVal.str s, PyVal.str t => Except.ok (decide (¬ t < s))
  | _, _ => Except.error "TypeError: unorderable types"

/-- Python `str(value)`. -/
def pyStr : PyVal → String
  | PyVal.int n => toString n
  | PyVal.str s => s
  | PyVal.null => "None"

/-- Python `repr(value)` as used by `str` on a list. -/
def pyReprItem : PyVal → String
  | PyVal.int n => toString n
  | PyVal.str s => "'" ++ s ++ "'"
  | PyVal.null => "None"

/-- `re.match` of the LIKE pattern (after `%` → `.*`, `_` → `.`) against the
string: an anchored-at-start (prefix) glob match.  This is the literal
translation for pattern values free of other regex metacharacters; a value
containing them would be read as a regex by the source (the claims never
evaluate LIKE). -/
def globPrefix : List Char → List Char → Bool
  | [], _ => true
  | '%' :: ps, cs =>
    globPrefix ps cs ||
      (match cs with
       | [] => false
       | _ :: cs' => globPrefix ('%' :: ps) cs')
  | '_' :: ps, cs =>
    (match cs with
     | [] => false
     | _ :: cs' => globPrefix ps cs')
  | p :: ps, cs =>
    (match cs with
     | [] => false
     | c :: cs' => p = c && globPrefix ps cs')
termination_by ps cs => (ps.length, cs.length)

/-- The right-hand operand once resolved: a scalar or a Python list/tuple. -/
inductive RVal : Type
  | scalar (v : PyVal)
  | many (vs : List PyVal)
deriving DecidableEq, Repr

/-- The operator dispatch of `WhereCondition.evaluate` (lines 90-116), after
both operands are in hand. -/
def evalOp (op : ComparisonOperator) (left : PyVal) (right : RVal) :
    Except String Bool :=
  match op with
  | ComparisonOperator.EQUALS =>
    match right with
    | RVal.scalar v => Except.ok (pyEq left v)
    | RVal.many _ => Except.ok false
  | ComparisonOperator.NOT_EQUALS =>
    match right with
    | RVal.scalar v => Except.ok (! pyEq left v)
    | RVal.many _ => Except.ok true
  | ComparisonOperator.GREATER_THAN =>
    match right with
    | RVal.scalar v => pyLt v left
    | RVal.many _ => Except.error "TypeError: unorderable types"
  | ComparisonOperator.LESS_THAN =>
    match right with
    | RVal.scalar v => pyLt left v
    | RVal.many _ => Except.error "TypeError: unorderable types"
  | ComparisonOperator.GREATER_EQUAL =>
    match right with
    | RVal.scalar v => pyLe v left
    | RVal.many _ => Except.error "TypeError: unorderable types"
  | ComparisonOperator.LESS_EQUAL =>
    match right with
    | RVal.scalar v => pyLe left v
    | RVal.many _ => Except.error "TypeError: unorderable types"
  | ComparisonOperator.LIKE =>
    let pat :=
      match right with
      | RVal.scalar v => pyStr v
      | RVal.many vs => "[" ++ String.intercalate ", " (vs.map pyReprItem) ++ "]"
    Except.ok (globPrefix pat.data (pyStr left).data)
  | ComparisonOperator.IN =>
    match right with
    | RVal.many vs => Except.ok (vs.any (fun v => pyEq v left))
    | RVal.scalar _ => Except.ok false
  | ComparisonOperator.BETWEEN =>
    match right with
    | RVal.many [lo, hi] =>
      match pyLe lo left with
      | Except.error e => Except.error e
      | Except.ok false => Except.ok false
      | Except.ok true => pyLe left hi
    | _ => Except.ok false
  | ComparisonOperator.IS_NULL =>
    Except.ok (left == PyVal.null)
  | ComparisonOperator.IS_NOT_NULL =>
    Except.ok (! (left == PyVal.null))

/-- `WhereCondition.evaluate` (lines 76-116): the missing-column guard, the
ColumnReference guard, then the operator dispatch. -/
def evaluate (c : WhereCondition) (row_data : List (String × PyVal)) :
    Except String Bool :=
  match alookup c.column row_data with
  | none => Except.ok false
  | some left_val =>
    match c.value with
    | CondValue.ref name =>
      match alookup name row_data with
      | none => Except.ok false
      | some right_val => evalOp c.operator left_val (RVal.scalar right_val)
    | CondValue.lit v => evalOp c.operator left_val (RVal.scalar v)
    | CondValue.many vs => evalOp c.operator left_val (RVal.many vs)

/-- A first concrete manager state: one `transaction_begin` call. -/
def demoS1 : LockCCM := (LockCCM.transaction_begin LockCCM.init).2

/-- Transaction 1 then takes a WRITE lock on row 7. -/
def demoS2 : LockCCM :=
  (LockCCM.applyOp (LockCCM.Op.query 1 RowAction.WRITE 7) demoS1).getD LockCCM.init

/-- Transaction 1 commits (PARTIALLY_COMMITTED) in `demoS1`. -/
def demoS1c : LockCCM :=
  (LockCCM.applyOp (LockCCM.Op.commit 1) demoS1).getD LockCCM.init

/-! ## Theorems -/

theorem alookup_aupsert_self {κ β : Type} [DecidableEq κ] (k : κ) (v : β)
    (m : List (κ × β)) : alookup k (aupsert k v m) = some v := by
  induction m with
  | nil => simp [aupsert, alookup]
  | cons p t ih =>
    obtain ⟨k', v'⟩ := p
    by_cases h : k' = k <;> simp [aupsert, alookup, h, ih]

theorem alookup_aupsert_ne {κ β : Type} [DecidableEq κ] {k k' : κ} (v : β)
    (m : List (κ × β)) (h : k ≠ k') : alookup k' (aupsert k v m) = alookup k' m := by
  induction m with
  | nil => simp [aupsert, alookup, h]
  | cons p t ih =>
    obtain ⟨k₀, v₀⟩ := p
    by_cases h₀ : k₀ = k
    · subst h₀; simp [aupsert, alookup, h]
    · simp only [aupsert, if_neg h₀]
      by_cases h₁ : k₀ = k' <;> simp [alookup, h₁, ih]

theorem alookup_aerase_self {κ β : Type} [DecidableEq κ] (k : κ)
    (m : List (κ × β)) : alookup k (aerase k m) = none := by
  induction m with
  | nil => rfl
  | cons p t ih =>
    obtain ⟨k', v'⟩ := p
    by_cases h : k' = k
    · simpa [aerase, List.filter_cons, h] using ih
    · simpa [aerase, List.filter_cons, h, alookup] using ih

theorem alookup_aerase_ne {κ β : Type} [DecidableEq κ] {k k' : κ}
    (m : List (κ × β)) (h : k ≠ k') : alookup k' (aerase k m) = alookup k' m := by
  induction m with
  | nil => rfl
  | cons p t ih =>
    obtain ⟨k₀, v₀⟩ := p
    have h' : k' ≠ k := Ne.symm h
    by_cases h₀ : k₀ = k
    · simpa [aerase, List.filter_cons, alookup, h₀, h, h'] using ih
    · by_cases h₁ : k₀ = k' <;>
        simpa [aerase, List.filter_cons, alookup, h₀, h₁, h, h'] using ih

theorem aupsert_length_of_mem {κ β : Type} [DecidableEq κ] {k : κ} {v₀ : β} (v : β)
    {m : List (κ × β)} (h : alookup k m = some v₀) :
    (aupsert k v m).length = m.length := by
  induction m with
  | nil => simp [alookup] at h
  | cons p t ih =>
    obtain ⟨k', v'⟩ := p
    by_cases h₀ : k' = k
    · simp [aupsert, h₀]
    · simp only [alookup, if_neg h₀] at h
      simp [aupsert, h₀, ih h]

theorem aupsert_of_not_mem {κ β : Type} [DecidableEq κ] {k : κ} (v : β)
    {m : List (κ × β)} (h : alookup k m = none) :
    aupsert k v m = m ++ [(k, v)] := by
  induction m with
  | nil => rfl
  | cons p t ih =>
    obtain ⟨k', v'⟩ := p
    by_cases h₀ : k' = k
    · simp [alookup, h₀] at h
    · simp only [alookup, if_neg h₀] at h
      simp [aupsert, h₀, ih h]

theorem alookup_append_single {κ β : Type} [DecidableEq κ] (k k' : κ) (v : β)
    (m : List (κ × β)) :
    alookup k' (m ++ [(k, v)]) =
      match alookup k' m with
      | some w => some w
      | none => if k = k' then some v else none := by
  induction m with
  | nil => simp [alookup]
  | cons p t ih =>
    obtain ⟨k₀, v₀⟩ := p
    by_cases h₀ : k₀ = k' <;> simp [alookup, h₀, ih]

namespace LockCCM

theorem relSharedStep_mem {tid row x : Nat} {m : List (Nat × List Nat)} (r : Nat)
    (h : x ∈ (alookup row (relSharedStep tid m r)).getD []) :
    x ∈ (alookup row m).getD [] := by
  unfold relSharedStep at h
  cases hm : alookup r m with
  | none => rw [hm] at h; exact h
  | some holders =>
    rw [hm] at h
    simp only at h
    by_cases hempty : pyDiscard tid holders = []
    · rw [if_pos hempty] at h
      by_cases hr : r = row
      · subst hr; rw [alookup_aerase_self] at h; simp at h
      · rwa [alookup_aerase_ne _ hr] at h
    · rw [if_neg hempty] at h
      by_cases hr : r = row
      · subst hr
        rw [alookup_aupsert_self] at h
        simp only [Option.getD_some] at h
        rw [hm]
        simpa using (List.mem_filter.mp h).1
      · rwa [alookup_aupsert_ne _ _ hr] at h

theorem releaseShared_mem {tid row x : Nat} (rows : List Nat)
    {m : List (Nat × List Nat)}
    (h : x ∈ (alookup row (releaseShared tid rows m)).getD []) :
    x ∈ (alookup row m).getD [] := by
  induction rows generalizing m with
  | nil => exact h
  | cons r rs ih =>
    exact relSharedStep_mem r (ih (by simpa [releaseShared] using h))

theorem relExclStep_lookup {tid row t : Nat} {m : List (Nat × Nat)} (r : Nat)
    (h : alookup row (relExclStep tid m r) = some t) :
    alookup row m = some t := by
  unfold relExclStep at h
  cases hm : alookup r m with
  | none => rw [hm] at h; exact h
  | some holder =>
    rw [hm] at h
    simp only at h
    by_cases heq : holder = tid
    · rw [if_pos heq] at h
      by_cases hr : r = row
      · subst hr; rw [alookup_aerase_self] at h; cases h
      · rwa [alookup_aerase_ne _ hr] at h
    · rwa [if_neg heq] at h

theorem releaseExclusive_lookup {tid row t : Nat} (rows : List Nat)
    {m : List (Nat × Nat)}
    (h : alookup row (releaseExclusive tid rows m) = some t) :
    alookup row m = some t := by
  induction rows generalizing m with
  | nil => exact h
  | cons r rs ih =>
    exact relExclStep_lookup r (ih (by simpa [releaseExclusive] using h))

theorem release_locks_transactions (s : LockCCM) (tid : Nat) :
    (release_locks s tid).transactions = s.transactions := by
  unfold release_locks
  cases alookup tid s.transactions <;> rfl

/-- How each manager call changes the transactions dict: a record update that
keeps the status, a status move along one spec edge, no change, or the
`begin` insertion of a fresh ACTIVE record at key `len+1`. -/
theorem applyOp_transactions {s s' : LockCCM} {op : Op}
    (hstep : applyOp op s = some s') :
    (∃ tid r r', alookup tid s.transactions = some r ∧ r'.status = r.status ∧
        s'.transactions = aupsert tid r' s.transactions) ∨
    (∃ tid r b, alookup tid s.transactions = some r ∧ statusEdge r.status b ∧
        s'.transactions = aupsert tid { r with status := b } s.transactions) ∨
    (s'.transactions = s.transactions) ∨
    (s'.transactions =
      aupsert (s.transactions.length + 1) ⟨ACTIVE, [], []⟩ s.transactions) := by
  cases op with
  | begin =>
    right; right; right
    simp only [applyOp, transaction_begin, Option.some.injEq] at hstep
    rw [← hstep]
  | commit tid =>
    right; left
    simp only [applyOp] at hstep
    unfold transaction_commit at hstep
    cases hrec : alookup tid s.transactions with
    | none => rw [hrec] at hstep; cases hstep
    | some r =>
      rw [hrec] at hstep; simp only at hstep
      by_cases hact : r.status = ACTIVE
      · rw [if_pos hact] at hstep
        injection hstep with hs; subst hs
        exact ⟨tid, r, PARTIALLY_COMMITTED, hrec, Or.inl ⟨hact, rfl⟩, rfl⟩
      · rw [if_neg hact] at hstep; cases hstep
  | rollback tid =>
    right; left
    simp only [applyOp] at hstep
    unfold transaction_rollback at hstep
    cases hrec : alookup tid s.transactions with
    | none => rw [hrec] at hstep; cases hstep
    | some r =>
      rw [hrec] at hstep; simp only at hstep
      by_cases hact : r.status = ACTIVE
      · rw [if_pos hact] at hstep
        injection hstep with hs; subst hs
        exact ⟨tid, r, FAILED, hrec, Or.inr (Or.inr (Or.inr (Or.inl ⟨hact, rfl⟩))), rfl⟩
      · rw [if_neg hact] at hstep; cases hstep
  | endTxn tid =>
    right; left
    simp only [applyOp] at hstep
    unfold transaction_end at hstep
    cases hrec : alookup tid s.transactions with
    | none => rw [hrec] at hstep; cases hstep
    | some r =>
      rw [hrec] at hstep; simp only at hstep
      by_cases hact : r.status = COMMITTED ∨ r.status = ABORTED
      · rw [if_pos hact] at hstep
        injection hstep with hs; subst hs
        refine ⟨tid, r, TERMINATED, hrec, ?_, rfl⟩
        rcases hact with hact | hact
        · exact Or.inr (Or.inr (Or.inl ⟨hact, rfl⟩))
        · exact Or.inr (Or.inr (Or.inr (Or.inr (Or.inr ⟨hact, rfl⟩))))
      · rw [if_neg hact] at hstep; cases hstep
  | commitFlushed tid =>
    right; left
    simp only [applyOp] at hstep
    unfold transaction_commit_flushed at hstep
    cases hrec : alookup tid s.transactions with
    | none => rw [hrec] at hstep; cases hstep
    | some r =>
      rw [hrec] at hstep; simp only at hstep
      by_cases hact : r.status = PARTIALLY_COMMITTED
      · rw [if_pos hact] at hstep
        injection hstep with hs; subst hs
        refine ⟨tid, r, COMMITTED, hrec, Or.inr (Or.inl ⟨hact, rfl⟩), ?_⟩
        rw [release_locks_transactions]
      · rw [if_neg hact] at hstep; cases hstep
  | abort tid =>
    right; left
    simp only [applyOp] at hstep
    unfold transaction_abort at hstep
    cases hrec : alookup tid s.transactions with
    | none => rw [hrec] at hstep; cases hstep
    | some r =>
      rw [hrec] at hstep; simp only at hstep
      by_cases hact : r.status = FAILED
      · rw [if_pos hact] at hstep
        injection hstep with hs; subst hs
        refine ⟨tid, r, ABORTED, hrec, Or.inr (Or.inr (Or.inr (Or.inr (Or.inl ⟨hact, rfl⟩)))), ?_⟩
        rw [release_locks_transactions]
      · rw [if_neg hact] at hstep; cases hstep
  | query tid a row =>
    simp only [applyOp] at hstep
    rw [Option.map_eq_some'] at hstep
    obtain ⟨⟨c, s₁⟩, hq, hs⟩ := hstep
    simp only at hs; subst hs
    unfold transaction_query at hq
    cases hrec : alookup tid s.transactions with
    | none => rw [hrec] at hq; cases hq
    | some r =>
      rw [hrec] at hq; simp only at hq
      by_cases hact : r.status = ACTIVE
      · rw [if_pos hact] at hq
        cases a with
        | READ =>
          cases hex : alookup row s.exclusive_locks with
          | some h =>
            rw [hex] at hq; simp only at hq
            by_cases hne : h ≠ tid
            · rw [if_pos hne] at hq
              right; right; left
              simp only [Option.some.injEq, Prod.mk.injEq] at hq
              rw [← hq.2]
            · rw [if_neg hne] at hq
              right; right; left
              simp only [Option.some.injEq, Prod.mk.injEq] at hq
              rw [← hq.2]
          | none =>
            rw [hex] at hq
            left
            simp only [Option.some.injEq, Prod.mk.injEq] at hq
            exact ⟨tid, r, { r with shared_row_ids := pyAdd row r.shared_row_ids },
              hrec, rfl, by rw [← hq.2]⟩
        | WRITE =>
          cases hex : alookup row s.exclusive_locks with
          | some h =>
            rw [hex] at hq; simp only at hq
            by_cases heq : h = tid
            · rw [if_pos heq] at hq
              right; right; left
              simp only [Option.some.injEq, Prod.mk.injEq] at hq
              rw [← hq.2]
            · rw [if_neg heq] at hq
              right; right; left
              simp only [Option.some.injEq, Prod.mk.injEq] at hq
              rw [← hq.2]
          | none =>
            rw [hex] at hq; simp only at hq
            cases hsh : alookup row s.shared_locks with
            | some holders =>
              rw [hsh] at hq; simp only at hq
              by_cases hoth : holders.filter (fun y => y ≠ tid) ≠ []
              · rw [if_pos hoth] at hq
                right; right; left
                simp only [Option.some.injEq, Prod.mk.injEq] at hq
                rw [← hq.2]
              · rw [if_neg hoth] at hq
                left
                simp only [Option.some.injEq, Prod.mk.injEq] at hq
                exact ⟨tid, r,
                  { r with
                    shared_row_ids := pyDiscard row r.shared_row_ids
                    exclusive_row_ids := pyAdd row r.exclusive_row_ids },
                  hrec, rfl, by rw [← hq.2]⟩
            | none =>
              rw [hsh] at hq
              left
              simp only [Option.some.injEq, Prod.mk.injEq] at hq
              exact ⟨tid, r, { r with exclusive_row_ids := pyAdd row r.exclusive_row_ids },
                hrec, rfl, by rw [← hq.2]⟩
      · rw [if_neg hact] at hq; cases hq

theorem lockInv_release {s : LockCCM} (tid : Nat) (h : LockInv s) :
    LockInv (release_locks s tid) := by
  unfold release_locks
  cases hm : alookup tid s.transactions with
  | none => exact h
  | some r =>
    intro row t hex
    have hex' : alookup row s.exclusive_locks = some t :=
      releaseExclusive_lookup _ hex
    have hempty := h row t hex'
    refine List.eq_nil_iff_forall_not_mem.mpr (fun x hx => ?_)
    have hx' : x ∈ (alookup row s.shared_locks).getD [] :=
      releaseShared_mem _ hx
    rw [hempty] at hx'
    exact absurd hx' (List.not_mem_nil x)

theorem lockInvM_update_shared {sh : List (Nat × List Nat)} {ex : List (Nat × Nat)}
    {row : Nat} (v : List Nat) (h : LockInvM sh ex)
    (hex : alookup row ex = none) : LockInvM (aupsert row v sh) ex := by
  intro row' t hex'
  by_cases hrr : row = row'
  · subst hrr; rw [hex'] at hex; cases hex
  · rw [alookup_aupsert_ne _ _ hrr]; exact h row' t hex'

theorem lockInvM_write_new {sh : List (Nat × List Nat)} {ex : List (Nat × Nat)}
    {row : Nat} (tid : Nat) (h : LockInvM sh ex)
    (hsh : (alookup row sh).getD [] = []) : LockInvM sh (aupsert row tid ex) := by
  intro row' t hex'
  by_cases hrr : row = row'
  · subst hrr; exact hsh
  · exact h row' t (by rwa [alookup_aupsert_ne _ _ hrr] at hex')

theorem lockInvM_write_upgrade {sh : List (Nat × List Nat)} {ex : List (Nat × Nat)}
    {row tid : Nat} {holders : List Nat} (h : LockInvM sh ex)
    (hfil : pyDiscard tid holders = []) :
    LockInvM (aupsert row (pyDiscard tid holders) sh) (aupsert row tid ex) := by
  intro row' t hex'
  by_cases hrr : row = row'
  · subst hrr; rw [alookup_aupsert_self]; simpa using hfil
  · rw [alookup_aupsert_ne _ _ hrr]
    exact h row' t (by rwa [alookup_aupsert_ne _ _ hrr] at hex')

theorem lockInv_applyOp {s s' : LockCCM} {op : Op} (h : LockInv s)
    (hstep : applyOp op s = some s') : LockInv s' := by
  cases op with
  | begin =>
    simp only [applyOp, transaction_begin, Option.some.injEq] at hstep
    rw [← hstep]; exact h
  | commit tid =>
    simp only [applyOp] at hstep
    unfold transaction_commit at hstep
    cases hrec : alookup tid s.transactions with
    | none => rw [hrec] at hstep; cases hstep
    | some r =>
      rw [hrec] at hstep; simp only at hstep
      by_cases hact : r.status = ACTIVE
      · rw [if_pos hact] at hstep
        injection hstep with hs; rw [← hs]; exact h
      · rw [if_neg hact] at hstep; cases hstep
  | rollback tid =>
    simp only [applyOp] at hstep
    unfold transaction_rollback at hstep
    cases hrec : alookup tid s.transactions with
    | none => rw [hrec] at hstep; cases hstep
    | some r =>
      rw [hrec] at hstep; simp only at hstep
      by_cases hact : r.status = ACTIVE
      · rw [if_pos hact] at hstep
        injection hstep with hs; rw [← hs]; exact h
      · rw [if_neg hact] at hstep; cases hstep
  | endTxn tid =>
    simp only [applyOp] at hstep
    unfold transaction_end at hstep
    cases hrec : alookup tid s.transactions with
    | none => rw [hrec] at hstep; cases hstep
    | some r =>
      rw [hrec] at hstep; simp only at hstep
      by_cases hact : r.status = COMMITTED ∨ r.status = ABORTED
      · rw [if_pos hact] at hstep
        injection hstep with hs; rw [← hs]; exact h
      · rw [if_neg hact] at hstep; cases hstep
  | commitFlushed tid =>
    simp only [applyOp] at hstep
    unfold transaction_commit_flushed at hstep
    cases hrec : alookup tid s.transactions with
    | none => rw [hrec] at hstep; cases hstep
    | some r =>
      rw [hrec] at hstep; simp only at hstep
      by_cases hact : r.status = PARTIALLY_COMMITTED
      · rw [if_pos hact] at hstep
        injection hstep with hs; rw [← hs]
        exact lockInv_release tid h
      · rw [if_neg hact] at hstep; cases hstep
  | abort tid =>
    simp only [applyOp] at hstep
    unfold transaction_abort at hstep
    cases hrec : alookup tid s.transactions with
    | none => rw [hrec] at hstep; cases hstep
    | some r =>
      rw [hrec] at hstep; simp only at hstep
      by_cases hact : r.status = FAILED
      · rw [if_pos hact] at hstep
        injection hstep with hs; rw [← hs]
        exact lockInv_release tid h
      · rw [if_neg hact] at hstep; cases hstep
  | query tid a row =>
    simp only [applyOp] at hstep
    rw [Option.map_eq_some'] at hstep
    obtain ⟨⟨c, s₁⟩, hq, hs⟩ := hstep
    simp only at hs; subst hs
    unfold transaction_query at hq
    cases hrec : alookup tid s.transactions with
    | none => rw [hrec] at hq; cases hq
    | some r =>
      rw [hrec] at hq; simp only at hq
      by_cases hact : r.status = ACTIVE
      · rw [if_pos hact] at hq
        cases a with
        | READ =>
          cases hex : alookup row s.exclusive_locks with
          | some hdr =>
            rw [hex] at hq; simp only at hq
            by_cases hne : hdr ≠ tid
            · rw [if_pos hne] at hq
              simp only [Option.some.injEq, Prod.mk.injEq] at hq
              rw [← hq.2]; exact h
            · rw [if_neg hne] at hq
              simp only [Option.some.injEq, Prod.mk.injEq] at hq
              rw [← hq.2]; exact h
          | none =>
            rw [hex] at hq
            simp only [Option.some.injEq, Prod.mk.injEq] at hq
            rw [← hq.2]
            exact lockInvM_update_shared _ h hex
        | WRITE =>
          cases hex : alookup row s.exclusive_locks with
          | some hdr =>
            rw [hex] at hq; simp only at hq
            by_cases heq : hdr = tid
            · rw [if_pos heq] at hq
              simp only [Option.some.injEq, Prod.mk.injEq] at hq
              rw [← hq.2]; exact h
            · rw [if_neg heq] at hq
              simp only [Option.some.injEq, Prod.mk.injEq] at hq
              rw [← hq.2]; exact h
          | none =>
            rw [hex] at hq; simp only at hq
            cases hsh : alookup row s.shared_locks with
            | some holders =>
              rw [hsh] at hq; simp only at hq
              by_cases hoth : holders.filter (fun y => y ≠ tid) ≠ []
              · rw [if_pos hoth] at hq
                simp only [Option.some.injEq, Prod.mk.injEq] at hq
                rw [← hq.2]; exact h
              · rw [if_neg hoth] at hq
                simp only [Option.some.injEq, Prod.mk.injEq] at hq
                rw [← hq.2]
                exact lockInvM_write_upgrade h (not_not.mp hoth)
            | none =>
              rw [hsh] at hq
              simp only [Option.some.injEq, Prod.mk.injEq] at hq
              rw [← hq.2]
              exact lockInvM_write_new tid h (by rw [hsh]; rfl)
      · rw [if_neg hact] at hq; cases hq

theorem lockInv_reachable {s : LockCCM} (h : Reachable s) : LockInv s := by
  induction h with
  | init => intro row t hx; cases hx
  | step op _ hstep ih => exact lockInv_applyOp ih hstep

theorem tdomInv_aupsert {m : List (Nat × TxnRecord)} {tid : Nat} {r : TxnRecord}
    (r' : TxnRecord) (hr : alookup tid m = some r) (h : TDomInv m) :
    TDomInv (aupsert tid r' m) := by
  intro k
  rw [aupsert_length_of_mem r' hr]
  by_cases hk : tid = k
  · subst hk
    rw [alookup_aupsert_self]
    have hx := h tid
    rw [hr] at hx
    simpa using hx
  · rw [alookup_aupsert_ne _ _ hk]; exact h k

theorem tdomInv_begin {m : List (Nat × TxnRecord)} (h : TDomInv m) (rec : TxnRecord) :
    TDomInv (aupsert (m.length + 1) rec m) := by
  have hnone : alookup (m.length + 1) m = none := by
    cases hc : alookup (m.length + 1) m with
    | none => rfl
    | some r =>
      have hx := (h (m.length + 1)).mp (by rw [hc]; rfl)
      omega
  rw [aupsert_of_not_mem _ hnone]
  intro k
  rw [alookup_append_single, List.length_append]
  cases hc : alookup k m with
  | some w =>
    have hx := (h k).mp (by rw [hc]; rfl)
    simp only [Option.isSome_some, List.length_cons, List.length_nil, true_iff]
    omega
  | none =>
    have hx : ¬ (1 ≤ k ∧ k ≤ m.length) := fun hk => by
      have := (h k).mpr hk
      rw [hc] at this
      cases this
    by_cases hke : m.length + 1 = k
    · simp only [if_pos hke, Option.isSome_some, List.length_cons, List.length_nil, true_iff]
      omega
    · simp only [if_neg hke, Option.isSome_none, List.length_cons, List.length_nil,
        Bool.false_eq_true, false_iff]
      omega

theorem domInv_applyOp {s s' : LockCCM} {op : Op} (h : DomInv s)
    (hstep : applyOp op s = some s') : DomInv s' := by
  rcases applyOp_transactions hstep with
    ⟨tid, r, r', hr, _, htr⟩ | ⟨tid, r, b, hr, _, htr⟩ | htr | htr
  · unfold DomInv; rw [htr]; exact tdomInv_aupsert _ hr h
  · unfold DomInv; rw [htr]; exact tdomInv_aupsert _ hr h
  · unfold DomInv; rw [htr]; exact h
  · unfold DomInv; rw [htr]; exact tdomInv_begin h _

theorem domInv_reachable {s : LockCCM} (h : Reachable s) : DomInv s := by
  induction h with
  | init =>
    intro k
    simp only [init, alookup, List.length_nil, Option.isSome_none, Bool.false_eq_true,
      false_iff]
    omega
  | step op _ hstep ih => exact domInv_applyOp ih hstep

end LockCCM

/-- C4: in every state of the Lock-Based CCM reachable by any sequence of
`transaction_begin`, `transaction_query`, `transaction_commit`,
`transaction_commit_flushed`, `transaction_rollback` and `transaction_abort`
calls, every resource either has no recorded exclusive holder, or exactly one
transaction holds it exclusively and its recorded shared-holder set is empty
(hence in particular empty-or-the-singleton of the holder). -/
theorem claimC4_lock_table_invariant :
    ∀ s : LockCCM, LockCCM.Reachable s → ∀ row : Nat,
      alookup row s.exclusive_locks = none ∨
      ∃ t, alookup row s.exclusive_locks = some t ∧
        (LockCCM.sharedOf s row = [] ∨ LockCCM.sharedOf s row = [t]) := by
  intro s hs row
  cases hc : alookup row s.exclusive_locks with
  | none => exact Or.inl rfl
  | some t =>
    exact Or.inr ⟨t, rfl, Or.inl (LockCCM.lockInv_reachable hs row t hc)⟩

/-- Witness for C4 at a concrete reachable state: after `begin` and a WRITE
lock by transaction 1 on row 7. -/
theorem claimC4_witness :
    alookup 7 demoS2.exclusive_locks = none ∨
    ∃ t, alookup 7 demoS2.exclusive_locks = some t ∧
      (LockCCM.sharedOf demoS2 7 = [] ∨ LockCCM.sharedOf demoS2 7 = [t]) := by
  have h1 : LockCCM.Reachable demoS1 :=
    LockCCM.Reachable.step LockCCM.Op.begin LockCCM.Reachable.init (by decide)
  have h2 : LockCCM.Reachable demoS2 :=
    LockCCM.Reachable.step (LockCCM.Op.query 1 RowAction.WRITE 7) h1 (by decide)
  exact claimC4_lock_table_invariant demoS2 h2 7

/-- C5: across every reachable state and every manager call that succeeds, a
transaction's status either stays put or moves along one edge of the DAG
ACTIVE → PARTIALLY_COMMITTED → COMMITTED → TERMINATED /
ACTIVE → FAILED → ABORTED → TERMINATED (a call that would do anything else
raises, returning no new state); the Timestamp-Based variant's overrides of
the same file change no status at all: its `transaction_commit` is a `pass`,
its `transaction_begin` raises before mutating, and its `transaction_query`
only runs the asserts. -/
theorem claimC5_status_transitions :
    (∀ s : LockCCM, LockCCM.Reachable s → ∀ op s',
      LockCCM.applyOp op s = some s' →
      ∀ tid r r', alookup tid s.transactions = some r →
        alookup tid s'.transactions = some r' →
        r.status = r'.status ∨ statusEdge r.status r'.status) ∧
    (∀ m, ts_transaction_commit m = some m) ∧
    (∀ m, ts_transaction_begin m = none) ∧
    (∀ m tid m', ts_transaction_query m tid = some m' → m' = m) := by
  refine ⟨?_, fun m => rfl, fun m => rfl, ?_⟩
  · intro s hs op s' hstep tid r r' hr hr'
    rcases LockCCM.applyOp_transactions hstep with
      ⟨tid₀, r₀, r₀', hr₀, hstat, htr⟩ | ⟨tid₀, r₀, b, hr₀, hedge, htr⟩ | htr | htr
    · rw [htr] at hr'
      by_cases hk : tid₀ = tid
      · subst hk
        rw [alookup_aupsert_self] at hr'
        rw [hr₀] at hr
        injection hr with hh
        injection hr' with hh'
        left; rw [← hh, ← hh']
        exact hstat.symm
      · rw [alookup_aupsert_ne _ _ hk, hr] at hr'
        injection hr' with hh
        left; rw [hh]
    · rw [htr] at hr'
      by_cases hk : tid₀ = tid
      · subst hk
        rw [alookup_aupsert_self] at hr'
        rw [hr₀] at hr
        injection hr with hh
        injection hr' with hh'
        right
        rw [← hh, ← hh']
        exact hedge
      · rw [alookup_aupsert_ne _ _ hk, hr] at hr'
        injection hr' with hh
        left; rw [hh]
    · rw [htr, hr] at hr'
      injection hr' with hh
      left; rw [hh]
    · rw [htr] at hr'
      have hd := LockCCM.domInv_reachable hs tid
      have hle : tid ≤ s.transactions.length := ((hd.mp (by rw [hr]; rfl))).2
      have hne : s.transactions.length + 1 ≠ tid := by omega
      rw [alookup_aupsert_ne _ _ hne, hr] at hr'
      injection hr' with hh
      left; rw [hh]
  · intro m tid m' hq
    unfold ts_transaction_query at hq
    cases hc : alookup tid m with
    | none => rw [hc] at hq; cases hq
    | some r =>
      rw [hc] at hq; simp only at hq
      by_cases hact : r.status = TransactionStatus.ACTIVE
      · rw [if_pos hact] at hq; injection hq with hh; rw [hh]
      · rw [if_neg hact] at hq; cases hq

/-- C3: in the Wait-Die Lock-Based CCM (modelled from the spec, the
`ConcurrencyControl.src` implementation being absent from src/), a READ or
WRITE request by an ACTIVE transaction on a resource whose exclusive lock is
held by a different transaction follows Wait-Die: an older requester (smaller
timestamp) is enqueued on the resource's wait queue with its event cleared
and receives WAITING, a younger requester (larger timestamp) is marked FAILED
and receives FAILED("wait-die: die"); `transaction_query` returns at once in
both cases — the embedding is a total function, it never blocks. -/
theorem claimC3_wait_die :
    ∀ (s : WaitDie.State) (tid : Nat) (a : RowAction) (res : String)
      (wt : WaitDie.WTxn) (h : Nat) (wh : WaitDie.WTxn),
      alookup tid s.transactions = some wt →
      wt.status = TransactionStatus.ACTIVE →
      alookup res s.exclusive = some h → h ≠ tid →
      alookup h s.transactions = some wh →
      (wt.timestamp < wh.timestamp →
        WaitDie.transaction_query s tid a res =
          (WaitDie.QueryResult.WAITING (some h),
           { s with
             wait_queue :=
               aupsert res ((alookup res s.wait_queue).getD [] ++ [(tid, a)])
                 s.wait_queue
             events := aupsert tid false s.events })) ∧
      (wh.timestamp < wt.timestamp →
        WaitDie.transaction_query s tid a res =
          (WaitDie.QueryResult.FAILED "wait-die: die",
           { s with
             transactions :=
               aupsert tid { wt with status := TransactionStatus.FAILED }
                 s.transactions })) := by
  intro s tid a res wt h wh hwt hact hex hne hwh
  constructor
  · intro hlt
    cases a <;>
      simp [WaitDie.transaction_query, hwt, hact, hex, hne, WaitDie.waitDie,
        WaitDie.tsOf, hwh, hlt]
  · intro hgt
    have hnlt : ¬ (wt.timestamp < wh.timestamp) := by omega
    cases a <;>
      simp [WaitDie.transaction_query, hwt, hact, hex, hne, WaitDie.waitDie,
        WaitDie.tsOf, hwh, hnlt]

/-- Witness for C3 at concrete inputs: in `demoWD` the older transaction 1
requesting `T` held by 2 gets WAITING and is enqueued with event cleared; in
`demoWD'` the younger transaction 2 requesting `T` held by 1 dies. -/
theorem claimC3_witness :
    WaitDie.transaction_query WaitDie.demoWD 1 RowAction.WRITE "T" =
      (WaitDie.QueryResult.WAITING (some 2),
       ⟨[(1, ⟨TransactionStatus.ACTIVE, 1⟩), (2, ⟨TransactionStatus.ACTIVE, 2⟩)],
        [], [("T", 2)], [("T", [(1, RowAction.WRITE)])], [(1, false), (2, true)]⟩) ∧
    WaitDie.transaction_query WaitDie.demoWD' 2 RowAction.WRITE "T" =
      (WaitDie.QueryResult.FAILED "wait-die: die",
       ⟨[(1, ⟨TransactionStatus.ACTIVE, 1⟩), (2, ⟨TransactionStatus.FAILED, 2⟩)],
        [], [("T", 1)], [], [(1, true), (2, true)]⟩) := by
  constructor
  · have hres := (claimC3_wait_die WaitDie.demoWD 1 RowAction.WRITE "T"
      ⟨TransactionStatus.ACTIVE, 1⟩ 2 ⟨TransactionStatus.ACTIVE, 2⟩
      (by decide) (by decide) (by decide) (by decide) (by decide)).1 (by decide)
    exact hres.trans (by decide)
  · have hres := (claimC3_wait_die WaitDie.demoWD' 2 RowAction.WRITE "T"
      ⟨TransactionStatus.ACTIVE, 2⟩ 1 ⟨TransactionStatus.ACTIVE, 1⟩
      (by decide) (by decide) (by decide) (by decide) (by decide)).2 (by decide)
    exact hres.trans (by decide)

/-- C1 (code bug): `QueryProcessor.execute_query` can never return a
successful result — line 71 calls `QueryExecutor.execute(plan_node,
transaction)` with two arguments while the method takes only the plan, so a
`TypeError` is raised and caught, and the optimizer-error branch also fails —
hence in the claimed CREATE/INSERT/SELECT sequence under one transaction the
SELECT returns `success = false` and no rows, not the inserted rows. -/
theorem claimC1_round_trip_broken :
    (∀ (st : ProcState) (optResult : Except String Unit) (query : String)
        (tid? : Option Nat),
      (execute_query st optResult query tid?).1.success = false) ∧
    ((execute_query
        (execute_query
          (execute_query ⟨LockCCM.init, [], 0⟩ (Except.ok ())
            "CREATE TABLE t(a INT, b VARCHAR(8))" (some 1)).2
          (Except.ok ()) "INSERT INTO t VALUES (1, 'x')" (some 1)).2
        (Except.ok ()) "SELECT * FROM t" (some 1)).1.success = false ∧
     (execute_query
        (execute_query
          (execute_query ⟨LockCCM.init, [], 0⟩ (Except.ok ())
            "CREATE TABLE t(a INT, b VARCHAR(8))" (some 1)).2
          (Except.ok ()) "INSERT INTO t VALUES (1, 'x')" (some 1)).2
        (Except.ok ()) "SELECT * FROM t" (some 1)).1.rows = none) := by
  refine ⟨?_, rfl, rfl⟩
  intro st optResult query tid?
  unfold execute_query
  cases optResult <;> rfl

/-- C2: a `begin` request makes the processor delegate to the CCM for a fresh
transaction id — one recorded for no existing transaction — registers it
ACTIVE, and the client receives `{success: true, transaction_id: tid}`.
(`QueryProcessor.begin_transaction` is spec-modelled; the CCM core allocation
is the embedded `transaction_begin`.) -/
theorem claimC2_begin_fresh_tid :
    ∀ (hs : HandlerState) (client_id : String),
      LockCCM.Reachable hs.proc.ccm →
      (handle_begin hs client_id).1.success = true ∧
      ∃ tid, (handle_begin hs client_id).1.transaction_id = some tid ∧
        alookup tid hs.proc.ccm.transactions = none ∧
        alookup tid (handle_begin hs client_id).2.proc.ccm.transactions =
          some ⟨TransactionStatus.ACTIVE, [], []⟩ := by
  intro hs client hreach
  refine ⟨rfl, hs.proc.ccm.transactions.length + 1, rfl, ?_, ?_⟩
  · have hd := LockCCM.domInv_reachable hreach (hs.proc.ccm.transactions.length + 1)
    cases hc : alookup (hs.proc.ccm.transactions.length + 1)
        hs.proc.ccm.transactions with
    | none => rfl
    | some r =>
      have hx := hd.mp (by rw [hc]; rfl)
      omega
  · exact alookup_aupsert_self _ _ _

/-- Witness for C2 at the freshly started server: the first `begin` yields
transaction id 1, previously unknown to the CCM. -/
theorem claimC2_witness :
    (handle_begin hsInit "c").1.success = true ∧
    ∃ tid, (handle_begin hsInit "c").1.transaction_id = some tid ∧
      alookup tid hsInit.proc.ccm.transactions = none ∧
      alookup tid (handle_begin hsInit "c").2.proc.ccm.transactions =
        some ⟨TransactionStatus.ACTIVE, [], []⟩ :=
  claimC2_begin_fresh_tid hsInit "c" LockCCM.Reachable.init

/-- C6 (amended): two successive `commit_transaction` calls on an id present
in `active_transactions` — the first succeeds, the second fails with the
message `Transaction '<id>' not found` (not the claimed
`transaction not found or not active`). -/
theorem claimC6_commit_idempotence :
    ∀ (st : ProcState) (tid : Nat) (txn : PTransaction),
      alookup tid st.active_transactions = some txn →
      (commit_transaction st tid).1.success = true ∧
      (commit_transaction (commit_transaction st tid).2 tid).1.success = false ∧
      (commit_transaction (commit_transaction st tid).2 tid).1.error =
        some ("Transaction '" ++ toString tid ++ "' not found") := by
  intro st tid txn h
  have hfirst : commit_transaction st tid =
      ({ success := true,
         message := "Transaction '" ++ toString tid ++ "' committed successfully" },
       { st with active_transactions := aerase tid st.active_transactions }) := by
    unfold commit_transaction
    rw [h]
  have hnone : alookup tid (commit_transaction st tid).2.active_transactions = none := by
    rw [hfirst]
    exact alookup_aerase_self tid _
  have hsecond : commit_transaction (commit_transaction st tid).2 tid =
      ({ success := false,
         error := some ("Transaction '" ++ toString tid ++ "' not found") },
       (commit_transaction st tid).2) := by
    generalize hgen : (commit_transaction st tid).2 = st₂ at hnone
    unfold commit_transaction
    rw [hnone]
  rw [hfirst] at hsecond ⊢
  rw [hsecond]
  exact ⟨rfl, rfl, rfl⟩

/-- Witness for C6 (amended) with transaction 1 active. -/
theorem claimC6_witness :
    (commit_transaction ⟨LockCCM.init, [(1, ⟨1, "ACTIVE"⟩)], 2⟩ 1).1.success = true ∧
    (commit_transaction
      (commit_transaction ⟨LockCCM.init, [(1, ⟨1, "ACTIVE"⟩)], 2⟩ 1).2 1).1.success = false ∧
    (commit_transaction
      (commit_transaction ⟨LockCCM.init, [(1, ⟨1, "ACTIVE"⟩)], 2⟩ 1).2 1).1.error =
      some ("Transaction '" ++ toString 1 ++ "' not found") :=
  claimC6_commit_idempotence ⟨LockCCM.init, [(1, ⟨1, "ACTIVE"⟩)], 2⟩ 1
    ⟨1, "ACTIVE"⟩ rfl

/-- Counterexample to C6 as stated: on the second commit of transaction 1 the
error text is `Transaction '1' not found`, not the claimed
`transaction not found or not active`. -/
theorem claimC6_counterexample :
    (commit_transaction ⟨LockCCM.init, [(1, ⟨1, "ACTIVE"⟩)], 2⟩ 1).1.success = true ∧
    (commit_transaction
      (commit_transaction ⟨LockCCM.init, [(1, ⟨1, "ACTIVE"⟩)], 2⟩ 1).2 1).1.error =
      some "Transaction '1' not found" ∧
    (commit_transaction
      (commit_transaction ⟨LockCCM.init, [(1, ⟨1, "ACTIVE"⟩)], 2⟩ 1).2 1).1.error ≠
      some "transaction not found or not active" := by
  refine ⟨rfl, by decide, by decide⟩

/-- C9 (amended): a message whose type is not execute/begin/commit/rollback —
which includes `analyze` and `defragment` — receives
`{'success': False, 'error': 'Unknown request type'}` and the connection stays
open: the worker goes on to handle the remaining messages unchanged. -/
theorem claimC9_unknown_type_keeps_connection :
    ∀ (optimizer : String → Except String Unit) (hs : HandlerState)
      (client_id : String) (msg : WireMessage) (rest : List WireMessage),
      msg.type? ≠ some "execute" → msg.type? ≠ some "begin" →
      msg.type? ≠ some "commit" → msg.type? ≠ some "rollback" →
      client_worker optimizer hs client_id (msg :: rest) =
        (({ success := false, error := some "Unknown request type" } : WireResponse)
            :: (client_worker optimizer hs client_id rest).1,
         (client_worker optimizer hs client_id rest).2) := by
  intro opt hs cid msg rest h1 h2 h3 h4
  have hr : handle_request opt hs cid msg =
      ({ success := false, error := some "Unknown request type" }, hs) := by
    unfold handle_request
    rw [if_neg h1, if_neg h2, if_neg h3, if_neg h4]
  simp only [client_worker]
  rw [hr]

/-- Witness for C9 (amended): a `defragment` message at the fresh server,
followed by a `begin` which is still served. -/
theorem claimC9_witness :
    client_worker (fun _ => Except.error "") hsInit "c"
        [⟨some "defragment", "", none⟩, ⟨some "begin", "", none⟩] =
      (({ success := false, error := some "Unknown request type" } : WireResponse)
          :: (client_worker (fun _ => Except.error "") hsInit "c"
                [⟨some "begin", "", none⟩]).1,
       (client_worker (fun _ => Except.error "") hsInit "c"
          [⟨some "begin", "", none⟩]).2) :=
  claimC9_unknown_type_keeps_connection (fun _ => Except.error "") hsInit "c"
    ⟨some "defragment", "", none⟩ [⟨some "begin", "", none⟩]
    (by decide) (by decide) (by decide) (by decide)

/-- Counterexample to C9 as stated: after a message of unrecognized type the
connection is not closed — the following `begin` is still answered (two
responses, the second successful) — and `defragment`, which the claim lists
as recognized, gets the unknown-type error response. -/
theorem claimC9_counterexample :
    (client_worker (fun _ => Except.error "") hsInit "c"
        [⟨some "bogus", "", none⟩, ⟨some "begin", "", none⟩]).1 =
      [{ success := false, error := some "Unknown request type" },
       { success := true, transaction_id := some 1 }] ∧
    (handle_request (fun _ => Except.error "") hsInit "c"
        ⟨some "defragment", "", none⟩).1 =
      { success := false, error := some "Unknown request type" } := by
  exact ⟨by decide, by decide⟩

theorem cmpInt_eq_iff {a b : Int} : cmpInt a b = Ordering.eq ↔ a = b := by
  unfold cmpInt
  split_ifs with h1 h2 <;> simp <;> omega

theorem cmpInt_refl (a : Int) : cmpInt a a = Ordering.eq :=
  cmpInt_eq_iff.mpr rfl

theorem cmpInt_swap (a b : Int) : cmpInt b a = (cmpInt a b).swap := by
  unfold cmpInt
  split_ifs <;> simp [Ordering.swap] <;> omega

theorem cmpInt_trans_lt {a b c : Int} (h1 : cmpInt a b = Ordering.lt)
    (h2 : cmpInt b c = Ordering.lt) : cmpInt a c = Ordering.lt := by
  unfold cmpInt at *
  split_ifs at * <;> simp_all <;> omega

theorem cmpList_eq_iff : ∀ {a b : List Int}, cmpList a b = Ordering.eq ↔ a = b
  | [], [] => by simp [cmpList]
  | [], _ :: _ => by simp [cmpList]
  | _ :: _, [] => by simp [cmpList]
  | x :: xs, y :: ys => by
    unfold cmpList
    cases hx : cmpInt x y with
    | eq =>
      have hxy : x = y := cmpInt_eq_iff.mp hx
      simp [hxy, cmpList_eq_iff]
    | lt =>
      have hne : x ≠ y := fun h => by rw [h, cmpInt_refl] at hx; cases hx
      simp [hne]
    | gt =>
      have hne : x ≠ y := fun h => by rw [h, cmpInt_refl] at hx; cases hx
      simp [hne]

theorem cmpList_swap : ∀ (a b : List Int), cmpList b a = (cmpList a b).swap
  | [], [] => rfl
  | [], _ :: _ => rfl
  | _ :: _, [] => rfl
  | x :: xs, y :: ys => by
    unfold cmpList
    rw [cmpInt_swap x y]
    cases cmpInt x y <;> simp [Ordering.swap, cmpList_swap xs ys]

theorem cmpList_trans_lt : ∀ {a b c : List Int},
    cmpList a b = Ordering.lt → cmpList b c = Ordering.lt →
    cmpList a c = Ordering.lt
  | [], [], _, h1, _ => by simp [cmpList] at h1
  | [], _ :: _, [], _, h2 => by simp [cmpList] at h2
  | [], _ :: _, _ :: _, _, _ => by simp [cmpList]
  | _ :: _, [], _, h1, _ => by simp [cmpList] at h1
  | _ :: _, _ :: _, [], _, h2 => by simp [cmpList] at h2
  | x :: xs, y :: ys, z :: zs, h1, h2 => by
    unfold cmpList at *
    cases hx : cmpInt x y with
    | gt => rw [hx] at h1; cases h1
    | lt =>
      rw [hx] at h1
      cases hy : cmpInt y z with
      | gt => rw [hy] at h2; cases h2
      | lt => rw [cmpInt_trans_lt hx hy]
      | eq =>
        have hyz : y = z := cmpInt_eq_iff.mp hy
        rw [← hyz, hx]
    | eq =>
      have hxy : x = y := cmpInt_eq_iff.mp hx
      rw [hx] at h1
      cases hy : cmpInt y z with
      | gt => rw [hy] at h2; cases h2
      | lt => rw [hxy, hy]
      | eq =>
        rw [hy] at h2
        rw [hxy, hy]
        exact cmpList_trans_lt h1 h2

theorem cmpElem_eq_iff : ∀ {a b : KElem}, cmpElem a b = some Ordering.eq ↔ a = b
  | KElem.num a, KElem.num b => by
    unfold cmpElem
    rw [Option.some.injEq, cmpInt_eq_iff, KElem.num.injEq]
  | KElem.num _, KElem.tup _ => by unfold cmpElem; simp
  | KElem.tup _, KElem.num _ => by unfold cmpElem; simp
  | KElem.tup a, KElem.tup b => by
    unfold cmpElem
    rw [Option.some.injEq, cmpList_eq_iff, KElem.tup.injEq]

theorem cmpElem_swap : ∀ (a b : KElem),
    cmpElem b a = (cmpElem a b).map Ordering.swap
  | KElem.num a, KElem.num b => by
    show some (cmpInt b a) = Option.map Ordering.swap (some (cmpInt a b))
    rw [cmpInt_swap a b, Option.map_some']
  | KElem.num _, KElem.tup _ => rfl
  | KElem.tup _, KElem.num _ => rfl
  | KElem.tup a, KElem.tup b => by
    show some (cmpList b a) = Option.map Ordering.swap (some (cmpList a b))
    rw [cmpList_swap a b, Option.map_some']

theorem cmpElem_trans_lt : ∀ {a b c : KElem},
    cmpElem a b = some Ordering.lt → cmpElem b c = some Ordering.lt →
    cmpElem a c = some Ordering.lt
  | KElem.num a, KElem.num b, KElem.num c, h1, h2 => by
    simp only [cmpElem, Option.some.injEq] at *
    exact cmpInt_trans_lt h1 h2
  | KElem.num _, KElem.num _, KElem.tup _, _, h2 => by simp [cmpElem] at h2
  | KElem.num _, KElem.tup _, _, h1, _ => by simp [cmpElem] at h1
  | KElem.tup _, KElem.num _, _, h1, _ => by simp [cmpElem] at h1
  | KElem.tup _, KElem.tup _, KElem.num _, _, h2 => by simp [cmpElem] at h2
  | KElem.tup a, KElem.tup b, KElem.tup c, h1, h2 => by
    simp only [cmpElem, Option.some.injEq] at *
    exact cmpList_trans_lt h1 h2

theorem cmpElem_refl (a : KElem) : cmpElem a a = some Ordering.eq :=
  cmpElem_eq_iff.mpr rfl

theorem cmpKey_eq_iff : ∀ {a b : List KElem}, cmpKey a b = some Ordering.eq ↔ a = b
  | [], [] => by simp [cmpKey]
  | [], _ :: _ => by simp [cmpKey]
  | _ :: _, [] => by simp [cmpKey]
  | x :: xs, y :: ys => by
    unfold cmpKey
    cases hx : cmpElem x y with
    | none =>
      have : ¬ (x = y) := fun h => by rw [h, cmpElem_refl] at hx; cases hx
      simp [this]
    | some o =>
      cases o with
      | eq =>
        have hxy : x = y := cmpElem_eq_iff.mp hx
        simp [hxy, cmpKey_eq_iff]
      | lt =>
        have : ¬ (x = y) := fun h => by
          rw [h, cmpElem_refl] at hx; cases hx
        simp [this]
      | gt =>
        have : ¬ (x = y) := fun h => by
          rw [h, cmpElem_refl] at hx; cases hx
        simp [this]

theorem cmpKey_refl (a : List KElem) : cmpKey a a = some Ordering.eq :=
  cmpKey_eq_iff.mpr rfl

theorem cmpKey_swap : ∀ (a b : List KElem),
    cmpKey b a = (cmpKey a b).map Ordering.swap
  | [], [] => rfl
  | [], _ :: _ => rfl
  | _ :: _, [] => rfl
  | x :: xs, y :: ys => by
    unfold cmpKey
    rw [cmpElem_swap x y]
    cases cmpElem x y with
    | none => rfl
    | some o => cases o <;> simp [Ordering.swap, cmpKey_swap xs ys]

theorem cmpKey_trans_lt : ∀ {a b c : List KElem},
    cmpKey a b = some Ordering.lt → cmpKey b c = some Ordering.lt →
    cmpKey a c = some Ordering.lt
  | [], [], _, h1, _ => by simp [cmpKey] at h1
  | [], _ :: _, [], _, h2 => by simp [cmpKey] at h2
  | [], _ :: _, _ :: _, _, _ => by simp [cmpKey]
  | _ :: _, [], _, h1, _ => by simp [cmpKey] at h1
  | _ :: _, _ :: _, [], _, h2 => by simp [cmpKey] at h2
  | x :: xs, y :: ys, z :: zs, h1, h2 => by
    unfold cmpKey at *
    cases hx : cmpElem x y with
    | none => rw [hx] at h1; cases h1
    | some ox =>
      rw [hx] at h1
      cases hy : cmpElem y z with
      | none => rw [hy] at h2; cases h2
      | some oy =>
        rw [hy] at h2
        cases ox with
        | gt => cases h1
        | lt =>
          cases oy with
          | gt => cases h2
          | lt => rw [cmpElem_trans_lt hx hy]
          | eq =>
            have hyz : y = z := cmpElem_eq_iff.mp hy
            rw [← hyz, hx]
        | eq =>
          have hxy : x = y := cmpElem_eq_iff.mp hx
          cases oy with
          | gt => cases h2
          | lt => rw [hxy, hy]
          | eq =>
            rw [hxy, hy]
            exact cmpKey_trans_lt h1 h2

theorem keyLeB_total (a b : List KElem) : keyLeB a b = true ∨ keyLeB b a = true := by
  unfold keyLeB
  rw [cmpKey_swap a b]
  cases cmpKey a b with
  | none => left; rfl
  | some o => cases o <;> simp [Ordering.swap]

theorem keyLeB_trans {a b c : List KElem}
    (hab : (cmpKey a b).isSome) (hbc : (cmpKey b c).isSome)
    (h1 : keyLeB a b = true) (h2 : keyLeB b c = true) : keyLeB a c = true := by
  unfold keyLeB at *
  cases hx : cmpKey a b with
  | none => rw [hx] at hab; cases hab
  | some ox =>
    cases hy : cmpKey b c with
    | none => rw [hy] at hbc; cases hbc
    | some oy =>
      rw [hx] at h1
      rw [hy] at h2
      cases ox with
      | gt => cases h1
      | eq =>
        have hab' : a = b := cmpKey_eq_iff.mp hx
        rw [hab', hy]
        cases oy <;> simp_all
      | lt =>
        cases oy with
        | gt => cases h2
        | eq =>
          have hbc' : b = c := cmpKey_eq_iff.mp hy
          rw [← hbc', hx]
        | lt => rw [cmpKey_trans_lt hx hy]

/-- `sortRel` holds between any two pairs with the same key. -/
theorem sortRel_of_eq_key {x y : List KElem × List PyVal} (h : x.1 = y.1) :
    sortRel x y := by
  unfold sortRel keyLeB
  rw [h, cmpKey_refl]

theorem sorted_orderedInsert_comp {S : List (List KElem × List PyVal)}
    (hcomp : ∀ x ∈ S, ∀ y ∈ S, (cmpKey x.1 y.1).isSome)
    (a : List KElem × List PyVal) (ha : a ∈ S) :
    ∀ (l : List (List KElem × List PyVal)), (∀ x ∈ l, x ∈ S) →
      l.Sorted sortRel → (l.orderedInsert sortRel a).Sorted sortRel := by
  intro l
  induction l with
  | nil => intro _ _; simp [List.orderedInsert]
  | cons b t ih =>
    intro hlS hs
    unfold List.orderedInsert
    by_cases hab : sortRel a b
    · rw [if_pos hab]
      rw [List.sorted_cons]
      refine ⟨?_, hs⟩
      intro y hy
      rcases List.mem_cons.mp hy with hyb | hyt
      · subst hyb; exact hab
      · have hby : sortRel b y :=
          (List.sorted_cons.mp hs).1 y hyt
        exact keyLeB_trans
          (hcomp a ha b (hlS b (List.mem_cons_self b t)))
          (hcomp b (hlS b (List.mem_cons_self b t)) y
            (hlS y (List.mem_cons_of_mem b hyt)))
          hab hby
    · rw [if_neg hab]
      rw [List.sorted_cons]
      constructor
      · intro y hy
        rcases (List.mem_orderedInsert sortRel).mp hy with hya | hyt
        · rw [hya]
          rcases keyLeB_total a.1 b.1 with h | h
          · exact absurd h hab
          · exact h
        · exact (List.sorted_cons.mp hs).1 y hyt
      · exact ih (fun x hx => hlS x (List.mem_cons_of_mem b hx))
          (List.sorted_cons.mp hs).2

theorem sorted_insertionSort_comp :
    ∀ (l : List (List KElem × List PyVal)),
      (∀ x ∈ l, ∀ y ∈ l, (cmpKey x.1 y.1).isSome) →
      (List.insertionSort sortRel l).Sorted sortRel
  | [], _ => by simp [List.insertionSort]
  | a :: t, hcomp => by
    have ht : (List.insertionSort sortRel t).Sorted sortRel :=
      sorted_insertionSort_comp t
        (fun x hx y hy =>
          hcomp x (List.mem_cons_of_mem a hx) y (List.mem_cons_of_mem a hy))
    exact sorted_orderedInsert_comp hcomp a (List.mem_cons_self a t)
      (List.insertionSort sortRel t)
      (fun x hx =>
        List.mem_cons_of_mem a ((List.mem_insertionSort sortRel).mp hx))
      ht

/-- Stability of the embedded sort: the rows of any one key class come out in
their original order. -/
theorem filter_key_insertionSort (l : List (List KElem × List PyVal))
    (k : List KElem) :
    (List.insertionSort sortRel l).filter (fun x => x.1 == k) =
      l.filter (fun x => x.1 == k) := by
  have hpair : (l.filter (fun x => x.1 == k)).Pairwise sortRel := by
    refine List.pairwise_of_forall_mem_list (fun x hx y hy => ?_)
    have hxk : x.1 = k := by simpa using (List.mem_filter.mp hx).2
    have hyk : y.1 = k := by simpa using (List.mem_filter.mp hy).2
    exact sortRel_of_eq_key (hxk.trans hyk.symm)
  have hsub : List.Sublist (l.filter (fun x => x.1 == k))
      (List.insertionSort sortRel l) :=
    List.sublist_insertionSort hpair (List.filter_sublist l)
  have hidem : (l.filter (fun x => x.1 == k)).filter (fun x => x.1 == k) =
      l.filter (fun x => x.1 == k) :=
    List.filter_eq_self.mpr (fun x hx => (List.mem_filter.mp hx).2)
  have hsub2 : List.Sublist (l.filter (fun x => x.1 == k))
      ((List.insertionSort sortRel l).filter (fun x => x.1 == k)) := by
    rw [← hidem]
    exact List.Sublist.filter _ hsub
  have hlen : ((List.insertionSort sortRel l).filter (fun x => x.1 == k)).length =
      (l.filter (fun x => x.1 == k)).length :=
    ((List.perm_insertionSort sortRel l).filter _).length_eq
  exact (hsub2.eq_of_length hlen.symm).symm

/-- C7 (amended): whenever `visit_sort` succeeds with a nonempty key list,
the result keeps the columns, is a permutation of the input rows, is ordered
by lexicographic comparison of the encoded keys (ASC a string becomes its
character codes, DESC their negations — so DESC places a proper prefix before
its extensions — and numbers are kept or negated), and is stable: each key
class keeps its original order.  At the key level NULL is encoded as the
empty string: NULL keys compare equal to one another and to `""`, and
strictly before every non-empty string under both directions, while a NULL
against a numeric key value is a `TypeError` rather than an ordering. -/
theorem claimC7_sort_amended :
    (∀ (clauses : List OrderByClause) (child : Rows)
        (idxs : List (Nat × String)) (out : Rows),
      clauses ≠ [] →
      sortIndices child.columns clauses = Except.ok idxs →
      visit_sort clauses none child = Except.ok out →
      out.columns = child.columns ∧
      out.data.Perm child.data ∧
      out.data.Pairwise
        (fun r r' => keyLeB (rowKeyD idxs r) (rowKeyD idxs r') = true) ∧
      (∀ k, out.data.filter (fun r => rowKeyD idxs r == k) =
            child.data.filter (fun r => rowKeyD idxs r == k))) ∧
    (∀ dir, keyElem dir PyVal.null = keyElem dir (PyVal.str "")) ∧
    (∀ dir s, s ≠ "" →
      cmpElem (keyElem dir PyVal.null) (keyElem dir (PyVal.str s)) =
        some Ordering.lt) ∧
    (∀ dir n,
      cmpElem (keyElem dir PyVal.null) (keyElem dir (PyVal.int n)) = none) := by
  refine ⟨?_, fun dir => rfl, ?_, ?_⟩
  · intro clauses child idxs out hne hidx hvs
    cases clauses with
    | nil => exact absurd rfl hne
    | cons cl cls =>
    unfold visit_sort at hvs
    rw [hidx] at hvs
    simp only at hvs
    split_ifs at hvs with h1 h2
    have hC : allComparable (child.data.map (rowKeyD idxs)) = true := h2
    injection hvs with hout
    subst hout
    simp only [applyLimit]
    refine ⟨trivial, ?_, ?_, ?_⟩
    · have hperm := List.perm_insertionSort sortRel
        (child.data.map (fun r => (rowKeyD idxs r, r)))
      have h2' := hperm.map Prod.snd
      have h3 : (child.data.map (fun r => (rowKeyD idxs r, r))).map Prod.snd =
          child.data := by
        rw [List.map_map]
        exact List.map_id child.data
      rw [h3] at h2'
      exact h2'
    · have hc : ∀ x ∈ child.data.map (fun r => (rowKeyD idxs r, r)),
          ∀ y ∈ child.data.map (fun r => (rowKeyD idxs r, r)),
          (cmpKey x.1 y.1).isSome := by
        intro x hx y hy
        obtain ⟨rx, hrx, hxe⟩ := List.mem_map.mp hx
        obtain ⟨ry, hry, hye⟩ := List.mem_map.mp hy
        subst hxe; subst hye
        have hC' := List.all_eq_true.mp hC
        have hx1 := hC' (rowKeyD idxs rx)
          (List.mem_map.mpr ⟨rx, hrx, rfl⟩)
        have hC'' := List.all_eq_true.mp hx1
        exact hC'' (rowKeyD idxs ry) (List.mem_map.mpr ⟨ry, hry, rfl⟩)
      have hsorted := sorted_insertionSort_comp
        (child.data.map (fun r => (rowKeyD idxs r, r))) hc
      have hmemkey : ∀ x ∈ List.insertionSort sortRel
          (child.data.map (fun r => (rowKeyD idxs r, r))),
          x.1 = rowKeyD idxs x.2 := by
        intro x hx
        have hx' := (List.mem_insertionSort sortRel).mp hx
        obtain ⟨r, _, hxe⟩ := List.mem_map.mp hx'
        subst hxe
        rfl
      rw [List.pairwise_map]
      exact hsorted.imp_of_mem
        (fun ha hb h => by
          rw [← hmemkey _ ha, ← hmemkey _ hb]
          exact h)
    · intro k
      have hmemkeyS : ∀ x ∈ List.insertionSort sortRel
          (child.data.map (fun r => (rowKeyD idxs r, r))),
          x.1 = rowKeyD idxs x.2 := by
        intro x hx
        have hx' := (List.mem_insertionSort sortRel).mp hx
        obtain ⟨r, _, hxe⟩ := List.mem_map.mp hx'
        subst hxe
        rfl
      have hmemkeyK : ∀ x ∈ child.data.map (fun r => (rowKeyD idxs r, r)),
          x.1 = rowKeyD idxs x.2 := by
        intro x hx
        obtain ⟨r, _, hxe⟩ := List.mem_map.mp hx
        subst hxe
        rfl
      calc
        ((List.insertionSort sortRel
            (child.data.map (fun r => (rowKeyD idxs r, r)))).map
          Prod.snd).filter (fun r => rowKeyD idxs r == k) =
            ((List.insertionSort sortRel
              (child.data.map (fun r => (rowKeyD idxs r, r)))).filter
                (fun x => rowKeyD idxs x.2 == k)).map Prod.snd := by
          rw [List.filter_map]
          rfl
        _ = ((List.insertionSort sortRel
              (child.data.map (fun r => (rowKeyD idxs r, r)))).filter
                (fun x => x.1 == k)).map Prod.snd := by
          rw [List.filter_congr'
            (fun x hx => by
              show (rowKeyD idxs x.2 == k) = (x.1 == k)
              rw [hmemkeyS x hx])]
        _ = ((child.data.map (fun r => (rowKeyD idxs r, r))).filter
                (fun x => x.1 == k)).map Prod.snd := by
          rw [filter_key_insertionSort]
        _ = ((child.data.map (fun r => (rowKeyD idxs r, r))).filter
                (fun x => rowKeyD idxs x.2 == k)).map Prod.snd := by
          rw [List.filter_congr'
            (fun x hx => by
              show (x.1 == k) = (rowKeyD idxs x.2 == k)
              rw [hmemkeyK x hx])]
        _ = child.data.filter (fun r => rowKeyD idxs r == k) := by
          have hfm : List.filter (fun x : List KElem × List PyVal =>
                rowKeyD idxs x.2 == k)
              (List.map (fun r => (rowKeyD idxs r, r)) child.data) =
              List.map (fun r => (rowKeyD idxs r, r))
                (List.filter (fun r => rowKeyD idxs r == k) child.data) := by
            rw [List.filter_map]
            rfl
          rw [hfm, List.map_map]
          exact List.map_id _
  · intro dir s hs
    have hsd : s.data ≠ [] := fun h => hs (by
      cases s with
      | mk d => simp at h; rw [h])
    cases hd : s.data with
    | nil => exact absurd hd hsd
    | cons c cs =>
      unfold keyElem normNull
      by_cases hdir : dir = "DESC" <;>
        simp [hdir, hd, cmpElem, cmpList]
  · intro dir n
    unfold keyElem normNull
    by_cases hdir : dir = "DESC" <;> simp [hdir, cmpElem]

/-- Counterexample to C7 as stated: NULL keys are encoded as the empty
string, so a row whose key is the empty string `""` — a non-NULL value —
ties with a NULL key row, and the stable sort leaves the NULL row AFTER it:
the NULL row is not ordered before all rows with non-NULL key values. -/
theorem claimC7_counterexample :
    visit_sort [⟨"a", "ASC"⟩] none ⟨["a"], [[PyVal.str ""], [PyVal.null]]⟩ =
      Except.ok ⟨["a"], [[PyVal.str ""], [PyVal.null]]⟩ := by
  decide

/-- Witness for C7 (amended) on the rows ["b"], [NULL] under ORDER BY a
ASC: the NULL row sorts first, the output is a stable sorted permutation. -/
theorem claimC7_witness :
    sortOut.columns = sortChild.columns ∧
    sortOut.data.Perm sortChild.data ∧
    sortOut.data.Pairwise
      (fun r r' =>
        keyLeB (rowKeyD [(0, "ASC")] r) (rowKeyD [(0, "ASC")] r') = true) ∧
    (∀ k, sortOut.data.filter (fun r => rowKeyD [(0, "ASC")] r == k) =
          sortChild.data.filter (fun r => rowKeyD [(0, "ASC")] r == k)) :=
  claimC7_sort_amended.1 [⟨"a", "ASC"⟩] sortChild [(0, "ASC")] sortOut
    (by decide) (by decide) (by decide)

/-- C10: `WhereCondition.evaluate` is total on rows missing the referenced
columns: when the condition's column is absent, or the comparison value is a
ColumnReference to an absent column, it returns `False` without raising; the
guards run before every operator branch, so no branch touches a missing key. -/
theorem claimC10_evaluate_missing_key :
    ∀ (c : WhereCondition) (row_data : List (String × PyVal)),
      (alookup c.column row_data = none →
        evaluate c row_data = Except.ok false) ∧
      (∀ name, c.value = CondValue.ref name → alookup name row_data = none →
        evaluate c row_data = Except.ok false) := by
  intro c row
  constructor
  · intro h
    unfold evaluate
    rw [h]
  · intro name hval h
    unfold evaluate
    cases hc : alookup c.column row with
    | none => rfl
    | some left =>
      rw [hval]
      simp only
      rw [h]

/-- Witness for C10: a GREATER_THAN condition on column `a` against a
reference to column `b`, on a row carrying neither. -/
theorem claimC10_witness :
    (alookup "a" [("x", PyVal.int 1)] = none →
      evaluate ⟨"a", ComparisonOperator.GREATER_THAN, CondValue.ref "b"⟩
        [("x", PyVal.int 1)] = Except.ok false) ∧
    (∀ name,
      (⟨"a", ComparisonOperator.GREATER_THAN, CondValue.ref "b"⟩ :
          WhereCondition).value = CondValue.ref name →
      alookup name [("x", PyVal.int 1)] = none →
      evaluate ⟨"a", ComparisonOperator.GREATER_THAN, CondValue.ref "b"⟩
        [("x", PyVal.int 1)] = Except.ok false) :=
  claimC10_evaluate_missing_key
    ⟨"a", ComparisonOperator.GREATER_THAN, CondValue.ref "b"⟩
    [("x", PyVal.int 1)]

/-- Witness for C5 at a concrete input: committing transaction 1 in the
one-transaction state moves ACTIVE to PARTIALLY_COMMITTED, an edge. -/
theorem claimC5_witness :
    (⟨TransactionStatus.ACTIVE, [], []⟩ : TxnRecord).status =
      (⟨TransactionStatus.PARTIALLY_COMMITTED, [], []⟩ : TxnRecord).status ∨
    statusEdge (⟨TransactionStatus.ACTIVE, [], []⟩ : TxnRecord).status
      (⟨TransactionStatus.PARTIALLY_COMMITTED, [], []⟩ : TxnRecord).status :=
 by
  have h1 : LockCCM.Reachable demoS1 :=
    LockCCM.Reachable.step LockCCM.Op.begin LockCCM.Reachable.init (by decide)
  exact claimC5_status_transitions.1 demoS1 h1 (LockCCM.Op.commit 1) demoS1c
    (by decide) 1 ⟨TransactionStatus.ACTIVE, [], []⟩
    ⟨TransactionStatus.PARTIALLY_COMMITTED, [], []⟩ (by decide) (by decide)


/-! ### C8: the serializer round-trip -/

/-- `struct.unpack('<I', struct.pack('<I', n))` is the identity below 2^32. -/
theorem readU32_u32le (n : Nat) (h : n < 2 ^ 32) :
    readU32 (n % 256) (n / 256 % 256) (n / 65536 % 256) (n / 16777216 % 256) = n := by
  unfold readU32
  omega

/-- Reading back the two's-complement residue recovers an int32 value. -/
theorem readI32_emod (v : Int) (h1 : -(2 ^ 31) ≤ v) (h2 : v < 2 ^ 31) :
    readI32 (v % 2 ^ 32).toNat = v := by
  unfold readI32
  split_ifs with h5
  · omega
  · omega

/-- An in-range INT field serializes to four bytes that parse back to the
value, leaving any trailing bytes untouched. -/
theorem parseField_serializeField_int (v : Int) (h1 : -(2 ^ 31) ≤ v)
    (h2 : v < 2 ^ 31) :
    serializeField ColType.int (SVal.int v) =
      Except.ok (u32le (v % 2 ^ 32).toNat) ∧
    (u32le (v % 2 ^ 32).toNat).length = 4 ∧
    ∀ extra, parseField ColType.int (u32le (v % 2 ^ 32).toNat ++ extra) =
      Except.ok (SVal.int v, extra) := by
  refine ⟨?_, rfl, ?_⟩
  · show i32le v = _
    unfold i32le
    rw [if_pos ⟨h1, h2⟩]
  · intro extra
    have hm : (v % 2 ^ 32).toNat < 2 ^ 32 := by omega
    simp only [u32le, parseField, List.cons_append, List.nil_append]
    rw [readU32_u32le _ hm, readI32_emod v h1 h2]

/-- A VARCHAR field of at most the declared width serializes to its
uint16 length prefix plus bytes, and parses back exactly. -/
theorem parseField_serializeField_varchar (n : Nat) (hn : n < 2 ^ 16)
    (bs : List Nat) (hbs : bs.length ≤ n) :
    serializeField (ColType.varchar n) (SVal.text bs) =
      Except.ok (u16le bs.length ++ bs) ∧
    (u16le bs.length ++ bs).length = 2 + bs.length ∧
    ∀ extra, parseField (ColType.varchar n) ((u16le bs.length ++ bs) ++ extra) =
      Except.ok (SVal.text bs, extra) := by
  refine ⟨?_, by simp [u16le]; omega, ?_⟩
  · show Except.ok
      (u16le (if bs.length > n then bs.take n else bs).length ++
        (if bs.length > n then bs.take n else bs)) = _
    rw [if_neg (by omega)]
  · intro extra
    have hr : readU16 (bs.length % 256) (bs.length / 256 % 256) = bs.length := by
      unfold readU16
      omega
    simp only [u16le, parseField, List.cons_append, List.nil_append, List.append_assoc]
    rw [hr, List.take_left, List.drop_left]

/-- A conforming row over an INT/VARCHAR schema serializes successfully, the
packed bytes are short (at most 65537 per column), and parsing them back —
with any trailing bytes — recovers the row. -/
theorem serializeRow_roundtrip (schema : List SColumn) (row : List SVal)
    (hs : intVarcharSchema schema = true) (hc : conformsRow schema row = true) :
    ∃ fields, serializeRow schema row = Except.ok fields ∧
      fields.length ≤ schema.length * 65537 ∧
      ∀ extra, parseRow schema (fields ++ extra) = Except.ok row := by
  induction schema generalizing row with
  | nil =>
    simp only [conformsRow, Bool.and_eq_true, decide_eq_true_eq, List.length_nil] at hc
    have hrow : row = [] := List.eq_nil_of_length_eq_zero hc.1
    subst hrow
    exact ⟨[], rfl, by simp, fun extra => rfl⟩
  | cons c cs ih =>
    simp only [intVarcharSchema, List.all_cons, Bool.and_eq_true] at hs
    cases row with
    | nil =>
      simp only [conformsRow, Bool.and_eq_true, decide_eq_true_eq, List.length_nil,
        List.length_cons] at hc
      omega
    | cons v vs =>
      simp only [conformsRow, Bool.and_eq_true, decide_eq_true_eq, List.length_cons,
        List.zip_cons_cons, List.all_cons] at hc
      have hc' : conformsRow cs vs = true := by
        simp only [conformsRow, Bool.and_eq_true, decide_eq_true_eq]
        exact ⟨by omega, hc.2.2⟩
      obtain ⟨rest, hrest, hrbound, hrparse⟩ := ih vs hs.2 hc'
      have hhead : ∃ field, serializeField c.ctype v = Except.ok field ∧
          field.length ≤ 65537 ∧
          ∀ extra, parseField c.ctype (field ++ extra) = Except.ok (v, extra) := by
        have hcf := hc.2.1
        cases hct : c.ctype with
        | int =>
          rw [hct] at hcf
          cases v with
          | int w =>
            simp only [conformsField, decide_eq_true_eq] at hcf
            obtain ⟨hsf, hlen4, hpf⟩ :=
              parseField_serializeField_int w hcf.1 hcf.2
            exact ⟨_, hsf, by rw [hlen4]; omega, hpf⟩
          | float b => exact absurd hcf (by simp [conformsField])
          | text b => exact absurd hcf (by simp [conformsField])
        | float =>
          rw [hct] at hs
          exact absurd hs.1 (by simp)
        | char m =>
          rw [hct] at hs
          exact absurd hs.1 (by simp)
        | varchar m =>
          rw [hct] at hs hcf
          have hm : m < 2 ^ 16 := by
            have := hs.1
            simpa using this
          cases v with
          | int w => exact absurd hcf (by simp [conformsField])
          | float b => exact absurd hcf (by simp [conformsField])
          | text bs =>
            simp only [conformsField, decide_eq_true_eq] at hcf
            obtain ⟨hsf, hlen2, hpf⟩ :=
              parseField_serializeField_varchar m hm bs hcf
            exact ⟨_, hsf, by rw [hlen2]; omega, hpf⟩
      obtain ⟨field, hfield, hfbound, hfparse⟩ := hhead
      refine ⟨field ++ rest, ?_, ?_, ?_⟩
      · simp only [serializeRow]
        rw [hfield]
        simp only
        rw [hrest]
      · simp only [List.length_append, List.length_cons]
        calc field.length + rest.length ≤ 65537 + cs.length * 65537 := by
              exact Nat.add_le_add hfbound hrbound
          _ = (cs.length + 1) * 65537 := by ring
      · intro extra
        simp only [parseRow, List.append_assoc]
        rw [hfparse (rest ++ extra)]
        simp only
        rw [hrparse extra]

/-- One serialized row prepended to a byte stream deserializes to the row
followed by whatever the rest of the stream deserializes to. -/
theorem deserialize_cons (schema : List SColumn) (fields more : List Nat)
    (hlt : fields.length < 2 ^ 32) (row : List SVal)
    (hrow : parseRow schema fields = Except.ok row)
    (rows : List (List SVal))
    (hmore : deserialize schema more = Except.ok rows) :
    deserialize schema (65 :: u32le fields.length ++ fields ++ more) =
      Except.ok (row :: rows) := by
  have hread : readU32 (fields.length % 256) (fields.length / 256 % 256)
      (fields.length / 65536 % 256) (fields.length / 16777216 % 256) =
        fields.length :=
    readU32_u32le fields.length hlt
  show deserialize schema (65 :: fields.length % 256 :: fields.length / 256 % 256 ::
      fields.length / 65536 % 256 :: fields.length / 16777216 % 256 ::
      (fields ++ more)) = Except.ok (row :: rows)
  rw [deserialize]
  rw [if_neg (by omega), hread]
  rw [if_neg (by simp [List.length_append])]
  rw [List.take_left, hrow]
  simp only
  rw [List.drop_left, hmore]

/-- Serializing then deserializing a list of conforming rows over an
INT/VARCHAR schema of at most 65535 columns is the identity. -/
theorem serialize_roundtrip (schema : List SColumn) (rows : List (List SVal))
    (hs : intVarcharSchema schema = true) (hn : schema.length ≤ 65535)
    (hc : ∀ row ∈ rows, conformsRow schema row = true) :
    ∃ bytes, serialize schema rows = Except.ok bytes ∧
      deserialize schema bytes = Except.ok rows := by
  induction rows with
  | nil => exact ⟨[], rfl, by rw [deserialize]; intro b0 b1 b2 b3 b4 rest h; cases h⟩
  | cons row rest ih =>
    obtain ⟨fields, hser, hlen, hpar⟩ :=
      serializeRow_roundtrip schema row hs (hc row (by simp))
    obtain ⟨more, hsm, hdm⟩ := ih (fun r hr => hc r (by simp [hr]))
    have hlt : fields.length < 2 ^ 32 := by
      have h1 : schema.length * 65537 ≤ 65535 * 65537 :=
        Nat.mul_le_mul_right _ hn
      omega
    refine ⟨65 :: u32le fields.length ++ fields ++ more, ?_, ?_⟩
    · simp only [serialize]
      rw [hser]
      simp only
      rw [if_pos hlt, hsm]
    · have hrow : parseRow schema fields = Except.ok row := by
        have := hpar []
        rwa [List.append_nil] at this
      exact deserialize_cons schema fields more hlt row hrow rest hdm

/-- C8 (amended): over schemas of INT and VARCHAR(n) columns only (n below
2^16, at most 65535 columns), `serialize` packs each conforming row as a
one-byte `'A'` delete flag, a uint32 LE row length, and fields packed as
INT = i32 LE and VARCHAR(n) = uint16 LE length prefix then bytes, and
`deserialize` returns exactly the original rows.  The claim's CHAR(n) case
is false: a CHAR value of at most n encoded bytes makes `serialize` raise
`TypeError`, because line 76 calls `bytes.ljust` with the `str` fill
`chr(0)`. -/
theorem claimC8_serializer_roundtrip :
    (∀ (schema : List SColumn) (rows : List (List SVal)),
        intVarcharSchema schema = true → schema.length ≤ 65535 →
        (∀ row ∈ rows, conformsRow schema row = true) →
        ∃ bytes, serialize schema rows = Except.ok bytes ∧
          deserialize schema bytes = Except.ok rows) ∧
    (∀ (n : Nat) (bs : List Nat), bs.length ≤ n →
        serializeField (ColType.char n) (SVal.text bs) = Except.error
          "TypeError: ljust() argument 2 must be a byte string of length 1, not str") := by
  constructor
  · exact serialize_roundtrip
  · intro n bs h
    show (if bs.length > n then Except.ok (bs.take n) else Except.error
      "TypeError: ljust() argument 2 must be a byte string of length 1, not str") = _
    rw [if_neg (by omega)]

/-- Counterexample to C8 as stated: a two-byte value in a CHAR(4) column
conforms to the claim's hypotheses, yet `serialize` raises the `ljust`
TypeError instead of NUL-padding — so no round-trip exists for CHAR. -/
theorem claimC8_counterexample :
    serialize [⟨"c", ColType.char 4⟩] [[SVal.text [97, 98]]] = Except.error
      "TypeError: ljust() argument 2 must be a byte string of length 1, not str" := by
  decide

/-- Witness for C8 at a concrete input: the schema (id INT, name VARCHAR(8))
with rows [(1, "x"), (-2, "")] round-trips, and CHAR(4) of "ab" raises. -/
theorem claimC8_witness :
    (∃ bytes,
      serialize [⟨"id", ColType.int⟩, ⟨"name", ColType.varchar 8⟩]
        [[SVal.int 1, SVal.text [120]], [SVal.int (-2), SVal.text []]] =
          Except.ok bytes ∧
      deserialize [⟨"id", ColType.int⟩, ⟨"name", ColType.varchar 8⟩] bytes =
        Except.ok [[SVal.int 1, SVal.text [120]], [SVal.int (-2), SVal.text []]]) ∧
    serializeField (ColType.char 4) (SVal.text [97, 98]) = Except.error
      "TypeError: ljust() argument 2 must be a byte string of length 1, not str" :=
  ⟨claimC8_serializer_roundtrip.1
      [⟨"id", ColType.int⟩, ⟨"name", ColType.varchar 8⟩]
      [[SVal.int 1, SVal.text [120]], [SVal.int (-2), SVal.text []]]
      (by decide) (by decide) (by decide),
   claimC8_serializer_roundtrip.2 4 [97, 98] (by decide)⟩

end MDbms
